import Mathlib

/-!
Verification of the core of the `Database-Python` repository against its
natural-language specification.

The development shallowly embeds the relevant parts of the source:

* `src/file_utils.py` — the attachment-reference serialization
  (`parse_file_value`, `parse_multi_file_value`, `format_file_value`,
  `format_multi_file_value`).  Python strings are modelled as `List Char`;
  `str.split`, `str.strip` and f-string concatenation are modelled by
  executable recursive functions mirroring CPython semantics.
* `src/database.py` — the `DatabaseManager` record-store engine: tables,
  the `_sys_columns` metadata side table, the bounded undo/redo deques,
  and the CRUD / undo / redo / rename operations.  SQL statements are
  modelled by their effect on an explicit in-memory state.
* `src/auth.py` — `verify_password` and its fail-closed error handling.
* The Fernet encryption wrappers `_encrypt_file` / `_decrypt_to_temp`
  (the cipher itself is library code and is modelled from the spec).
-/

namespace DBPy

/-! ## Python string helpers (`src/file_utils.py` ground model)

A Python `str` is modelled as `List Char`. -/

/-- The ASCII whitespace characters stripped by Python `str.strip()`
(the unicode-only whitespace code points are not used by any input in
this development). -/
def pyIsSpace (c : Char) : Bool :=
  c = ' ' || c = '\t' || c = '\n' || c = '\r' || c = '\x0b' || c = '\x0c'

/-- Python `s.strip()`: drop whitespace from both ends. -/
def pyStrip (s : List Char) : List Char :=
  ((s.dropWhile pyIsSpace).reverse.dropWhile pyIsSpace).reverse

/-- Python `s.split(";;")` (unbounded split on the two-character
separator, scanning left to right, non-overlapping). -/
def splitSemiSemi : List Char → List (List Char)
  | [] => [[]]
  | [c] => [[c]]
  | c1 :: c2 :: rest =>
    if c1 = ';' ∧ c2 = ';' then
      [] :: splitSemiSemi rest
    else
      match splitSemiSemi (c2 :: rest) with
      | [] => [[c1]]
      | r :: rs => (c1 :: r) :: rs

/-- Python `s.split('|', 1)` restricted to the case where `'|'` occurs in
`s`: returns the part before the first `'|'` and everything after it. -/
def splitPipeOnce : List Char → List Char × List Char
  | [] => ([], [])
  | c :: rest =>
    if c = '|' then ([], rest)
    else
      let p := splitPipeOnce rest
      (c :: p.1, p.2)

/-- Python `";;".join(parts)`. -/
def joinSemiSemi : List (List Char) → List Char
  | [] => []
  | [x] => x
  | x :: xs => x ++ ';' :: ';' :: joinSemiSemi xs

/-! ## `src/file_utils.py`: attachment value serialization -/

/-- `file_utils.parse_file_value`: parse `"original|encrypted"`; a falsy
(empty) value gives `(None, None)`; a value without `'|'` is legacy and
duplicated into both components. -/
def parse_file_value (dbValue : List Char) : Option (List Char) × Option (List Char) :=
  if dbValue.isEmpty then (none, none)
  else if dbValue.contains '|' then
    let p := splitPipeOnce dbValue
    (some p.1, some p.2)
  else (some dbValue, some dbValue)

/-- `file_utils.format_file_value`: `f"{original}|{encrypted}"`. -/
def format_file_value (original encrypted : List Char) : List Char :=
  original ++ '|' :: encrypted

/-- One iteration of the `for part in parts` loop body of
`parse_multi_file_value`: `part` contributes an entry iff `part.strip()`
is non-empty and both parsed components are truthy. -/
def parseMultiPart (part : List Char) : Option (List Char × List Char) :=
  let sp := pyStrip part
  if sp.isEmpty then none
  else
    match parse_file_value sp with
    | (some original, some encrypted) =>
      if original.isEmpty || encrypted.isEmpty then none else some (original, encrypted)
    | _ => none

/-- `file_utils.parse_multi_file_value`. -/
def parse_multi_file_value (dbValue : List Char) : List (List Char × List Char) :=
  if dbValue.isEmpty then []
  else (splitSemiSemi dbValue).filterMap parseMultiPart

/-- `file_utils.format_multi_file_value`. -/
def format_multi_file_value (files : List (List Char × List Char)) : List Char :=
  if files.isEmpty then []
  else joinSemiSemi (files.map (fun p => format_file_value p.1 p.2))

/-- A component string that survives the serialization round-trip:
non-empty, free of both delimiter characters, and not starting or ending
with whitespace (Python `strip` would drop edge whitespace). -/
def goodComp (s : List Char) : Bool :=
  !s.isEmpty && !s.contains '|' && !s.contains ';' &&
    (match s.head? with | some c => !pyIsSpace c | none => true) &&
    (match s.getLast? with | some c => !pyIsSpace c | none => true)

/-! ## `src/database.py`: the record-store engine

SQLite values appearing in user rows. -/

inductive SqlValue where
  | null
  | int (i : Int)
  | text (s : String)
deriving DecidableEq

/-- A row of a user table as returned by `SELECT *`: the integer `id`
primary key followed by the values of the non-id columns, in schema
order. -/
abbrev SqlRow := Int × List SqlValue

/-- One user table: the non-id column names (in the order they follow
the implicit leading `id` column), the AUTOINCREMENT sequence (the next
id handed out by an INSERT), and the stored rows.  Result-set ordering
is not modelled; no claim depends on it. -/
structure TableData where
  cols : List String
  seq : Int
  rows : List SqlRow
deriving DecidableEq

/-- A journal entry of the undo/redo system, mirroring the dictionaries
pushed by `insert_record` / `update_record` / `delete_record`.  An
`update` entry may lack the captured post-image (`new = none`),
mirroring a dictionary without the `'new_data'` key. -/
inductive UndoEntry where
  | insert (table : String) (id : Int)
  | delete (table : String) (id : Int) (old : SqlRow) (capCols : List String)
  | update (table : String) (id : Int) (old : SqlRow) (new : Option SqlRow)
deriving DecidableEq

/-- A row of the `_sys_columns` metadata side table, primary-keyed by
`(table, col)`. -/
structure SysCol where
  table : String
  col : String
  special : String
  extra : String
deriving DecidableEq

/-- The in-memory state of a `DatabaseManager` session: the user
tables, the `_sys_columns` metadata, and the two bounded deques.  The
stacks are stored most-recent-first; `deque.append` is push-at-head and
`maxlen=3` eviction drops the last (oldest) element. -/
structure DBState where
  tables : List (String × TableData)
  meta : List SysCol
  undoStack : List UndoEntry
  redoStack : List UndoEntry
deriving DecidableEq

/-- Association-list lookup by table name (first match). -/
def assoc : List (String × TableData) → String → Option TableData
  | [], _ => none
  | (k, v) :: l, t => if k = t then some v else assoc l t

/-- Look up a table by name (first match). -/
def lookupTable (st : DBState) (t : String) : Option TableData :=
  assoc st.tables t

/-- Replace the table data stored under name `t`. -/
def setTable (st : DBState) (t : String) (td : TableData) : DBState :=
  { st with tables := st.tables.map (fun p => if p.1 = t then (t, td) else p) }

/-- `deque(maxlen=3).append`: push at the head, evicting the oldest
(last) entry past capacity 3. -/
def pushBounded (e : UndoEntry) (s : List UndoEntry) : List UndoEntry :=
  (e :: s).take 3

/-- The rows matching `WHERE id=?`. -/
def recordsById (td : TableData) (rid : Int) : List SqlRow :=
  td.rows.filter (fun r => decide (r.1 = rid))

/-- `UPDATE t SET ... WHERE id=?`: rewrite the non-id fields of every
row whose id matches, by `f`. -/
def setRowsBy (rows : List SqlRow) (rid : Int) (f : SqlRow → List SqlValue) : List SqlRow :=
  rows.map (fun r => if r.1 = rid then (r.1, f r) else r)

/-- `DELETE FROM t WHERE id=?`. -/
def deleteRows (rows : List SqlRow) (rid : Int) : List SqlRow :=
  rows.filter (fun r => !(decide (r.1 = rid)))

/-- `DatabaseManager.get_columns`: `PRAGMA table_info` lists the
implicit `id` primary key first, then the user columns. -/
def get_columns (td : TableData) : List String :=
  "id" :: td.cols

/-- `DatabaseManager.get_records(table)` (no filter).  A query on a
missing table raises in the source; callers under verification only use
it on existing tables, so the missing case returns `[]` here. -/
def get_records (st : DBState) (t : String) : List SqlRow :=
  match lookupTable st t with
  | some td => td.rows
  | none => []

/-- `DatabaseManager.get_records(table, "id=?", (rid,))`. -/
def get_records_id (st : DBState) (t : String) (rid : Int) : List SqlRow :=
  match lookupTable st t with
  | some td => recordsById td rid
  | none => []

/-- The new-row fields built by `INSERT INTO t (cols...) VALUES (...)`:
mentioned columns take the supplied value, unmentioned columns default
to NULL.  `data` models the Python dict as an association list. -/
def insertFields (cols : List String) (data : List (String × SqlValue)) : List SqlValue :=
  cols.map (fun c => (data.lookup c).getD SqlValue.null)

/-- The fields produced by `UPDATE ... SET "c"=? ...` on one row. -/
def applyUpdate (cols : List String) (fields : List SqlValue)
    (data : List (String × SqlValue)) : List SqlValue :=
  (cols.zip fields).map (fun cv => (data.lookup cv.1).getD cv.2)

/-- Validity of a mutation's column dict: non-empty (an empty SET /
column list is a SQL syntax error) and every key an existing user
column (an unknown column raises, and the method returns `False`). -/
def validData (td : TableData) (data : List (String × SqlValue)) : Bool :=
  !data.isEmpty && (data.map Prod.fst).all (fun c => td.cols.contains c)

/-- The table after `INSERT INTO t (...) VALUES (...)` with a fresh
AUTOINCREMENT id. -/
def insertedTable (td : TableData) (data : List (String × SqlValue)) : TableData :=
  { td with seq := td.seq + 1, rows := td.rows ++ [(td.seq, insertFields td.cols data)] }

/-- The table after `UPDATE t SET ... WHERE id=?`. -/
def updatedTable (td : TableData) (rid : Int) (data : List (String × SqlValue)) : TableData :=
  { td with rows := setRowsBy td.rows rid (fun r => applyUpdate td.cols r.2 data) }

/-- The table after `DELETE FROM t WHERE id=?`. -/
def deletedTable (td : TableData) (rid : Int) : TableData :=
  { td with rows := deleteRows td.rows rid }

/-- The table after re-inserting a captured row with its explicit id
(undo of a delete); an explicit id bumps the AUTOINCREMENT sequence
past it, as SQLite does. -/
def restoredTable (td : TableData) (row : SqlRow) : TableData :=
  { td with rows := td.rows ++ [(row.1, row.2)], seq := max td.seq (row.1 + 1) }

/-- The table after `UPDATE t SET ... WHERE id=?` writing a fixed full
image into the non-id columns (undo/redo of an update). -/
def setFieldsTable (td : TableData) (rid : Int) (fields : List SqlValue) : TableData :=
  { td with rows := setRowsBy td.rows rid (fun _ => fields) }

/-- `DatabaseManager.insert_record`: insert the row, push an `insert`
journal entry, clear the redo stack.  Any storage error returns
`(st, false)` with the state unchanged. -/
def insert_record (st : DBState) (t : String) (data : List (String × SqlValue)) :
    DBState × Bool :=
  match lookupTable st t with
  | none => (st, false)
  | some td =>
    if validData td data then
      let rid := td.seq
      let st' := setTable st t (insertedTable td data)
      ({ st' with undoStack := pushBounded (.insert t rid) st'.undoStack, redoStack := [] },
        true)
    else (st, false)

/-- `DatabaseManager.update_record`: capture the pre-image, apply the
UPDATE, capture the post-image; push an `update` entry and clear the
redo stack only when both images are non-empty. -/
def update_record (st : DBState) (t : String) (rid : Int)
    (data : List (String × SqlValue)) : DBState × Bool :=
  match lookupTable st t with
  | none => (st, false)
  | some td =>
    if validData td data then
      let old := recordsById td rid
      let td' := updatedTable td rid data
      let newR := recordsById td' rid
      let st' := setTable st t td'
      match old.head?, newR.head? with
      | some o, some n =>
        ({ st' with
            undoStack := pushBounded (.update t rid o (some n)) st'.undoStack,
            redoStack := [] }, true)
      | _, _ => (st', true)
    else (st, false)

/-- `DatabaseManager.delete_record`: capture the pre-image, DELETE;
push a `delete` entry (with the column layout) and clear the redo
stack only when a row was captured. -/
def delete_record (st : DBState) (t : String) (rid : Int) : DBState × Bool :=
  match lookupTable st t with
  | none => (st, false)
  | some td =>
    let old := recordsById td rid
    let st' := setTable st t (deletedTable td rid)
    match old.head? with
    | some o =>
      ({ st' with
          undoStack := pushBounded (.delete t rid o (get_columns td)) st'.undoStack,
          redoStack := [] }, true)
    | none => (st', true)

/-- `DatabaseManager.undo`.  The entry is popped before anything can
fail, so a failed replay loses it (as in the source, where the pop
precedes the `try` body's SQL).  Replay failure conditions model the
SQL errors: a missing table, a placeholder/value count mismatch, or a
primary-key conflict on re-insert.  Exception text in error messages is
elided. -/
def undo (st : DBState) : DBState × Bool × String :=
  match st.undoStack with
  | [] => (st, false, "Nessuna operazione da annullare")
  | op :: rest =>
    match op with
    | .insert t rid =>
      match lookupTable st t with
      | none => ({ st with undoStack := rest }, false, "Errore durante annullamento")
      | some td =>
        let st' := setTable st t (deletedTable td rid)
        ({ st' with undoStack := rest, redoStack := pushBounded op st'.redoStack },
          true, "Operazione annullata: insert")
    | .delete t _rid old capCols =>
      match lookupTable st t with
      | none => ({ st with undoStack := rest }, false, "Errore durante annullamento")
      | some td =>
        if capCols = get_columns td ∧ old.2.length = td.cols.length ∧
            ¬ old.1 ∈ td.rows.map Prod.fst then
          let st' := setTable st t (restoredTable td old)
          ({ st' with undoStack := rest, redoStack := pushBounded op st'.redoStack },
            true, "Operazione annullata: delete")
        else ({ st with undoStack := rest }, false, "Errore durante annullamento")
    | .update t rid old _new =>
      match lookupTable st t with
      | none => ({ st with undoStack := rest }, false, "Errore durante annullamento")
      | some td =>
        if old.2.length = td.cols.length then
          let st' := setTable st t (setFieldsTable td rid old.2)
          ({ st' with undoStack := rest, redoStack := pushBounded op st'.redoStack },
            true, "Operazione annullata: update")
        else ({ st with undoStack := rest }, false, "Errore durante annullamento")

/-- `DatabaseManager.redo`.  An `update` entry without a captured
post-image fails explicitly, before any SQL runs. -/
def redo (st : DBState) : DBState × Bool × String :=
  match st.redoStack with
  | [] => (st, false, "Nessuna operazione da ripristinare")
  | op :: rest =>
    match op with
    | .insert t rid =>
      match lookupTable st t with
      | none => ({ st with redoStack := rest }, false, "Errore durante il ripristino")
      | some td =>
        let st' := setTable st t (deletedTable td rid)
        ({ st' with redoStack := rest, undoStack := pushBounded op st'.undoStack },
          true, "Operazione ripristinata: insert")
    | .delete t rid _old _capCols =>
      match lookupTable st t with
      | none => ({ st with redoStack := rest }, false, "Errore durante il ripristino")
      | some td =>
        let st' := setTable st t (deletedTable td rid)
        ({ st' with redoStack := rest, undoStack := pushBounded op st'.undoStack },
          true, "Operazione ripristinata: delete")
    | .update t rid _old new =>
      match new with
      | none => ({ st with redoStack := rest }, false, "Dati insufficienti per ripristinare update")
      | some nd =>
        match lookupTable st t with
        | none => ({ st with redoStack := rest }, false, "Errore durante il ripristino")
        | some td =>
          if nd.2.length = td.cols.length then
            let st' := setTable st t (setFieldsTable td rid nd.2)
            ({ st' with redoStack := rest, undoStack := pushBounded op st'.undoStack },
              true, "Operazione ripristinata: update")
          else ({ st with redoStack := rest }, false, "Errore durante il ripristino")

/-- `DatabaseManager.get_special_type`: first `_sys_columns` row keyed
by `(table, col)`, projected to `(special_type, extra_info)`. -/
def get_special_type (st : DBState) (t c : String) : Option (String × String) :=
  (st.meta.find? (fun r => decide (r.table = t) && decide (r.col = c))).map
    (fun r => (r.special, r.extra))

/-- The `(table_name, col_name)` primary keys of the metadata rows. -/
def metaKeys (m : List SysCol) : List (String × String) :=
  m.map (fun r => (r.table, r.col))

/-- `DatabaseManager.rename_column`: `ALTER TABLE ... RENAME COLUMN`
followed by `UPDATE _sys_columns SET col_name=?`.  The ALTER fails if
the table or source column is missing or the target name collides with
a different existing column; the metadata UPDATE fails if it would
violate the `(table_name, col_name)` primary key.  A failure returns
`(st, false)` (the partially-applied failure states that the source
cannot roll back are not reached by any verified claim). -/
def rename_column (st : DBState) (t oldName newName : String) : DBState × Bool :=
  match lookupTable st t with
  | none => (st, false)
  | some td =>
    if td.cols.contains oldName &&
        (!(get_columns td).contains newName || newName == oldName) then
      let meta' := st.meta.map
        (fun r => if r.table = t ∧ r.col = oldName then { r with col := newName } else r)
      if (metaKeys meta').Nodup then
        let td' : TableData :=
          { td with cols := td.cols.map (fun c => if c = oldName then newName else c) }
        ({ setTable st t td' with meta := meta' }, true)
      else (st, false)
    else (st, false)

/-! ### `get_tables` and SQL LIKE -/

/-- Try matching `f` against every suffix of the string (the
backtracking search performed by a `%` wildcard, which matches any
number of characters). -/
def tryTails (f : List Char → Bool) : List Char → Bool
  | [] => f []
  | c :: s' => f (c :: s') || tryTails f s'

/-- SQL `LIKE` matching as used by SQLite: `%` matches any sequence,
`_` matches any single character, and plain characters compare
ASCII-case-insensitively. -/
def likeMatch : List Char → List Char → Bool
  | [], s => s.isEmpty
  | p :: ps, s =>
    if p = '%' then tryTails (likeMatch ps) s
    else
      match s with
      | [] => false
      | c :: s' =>
        if p = '_' then likeMatch ps s'
        else (p.toLower == c.toLower) && likeMatch ps s'

/-- The names in `sqlite_master` with `type='table'`: the metadata side
table `_sys_columns` plus every user table. -/
def masterTableNames (st : DBState) : List String :=
  "_sys_columns" :: st.tables.map Prod.fst

/-- `DatabaseManager.get_tables`: filter out names LIKE `'sqlite_%'` or
LIKE `'_sys_%'`. -/
def get_tables (st : DBState) : List String :=
  (masterTableNames st).filter
    (fun n => !likeMatch "sqlite_%".toList n.toList && !likeMatch "_sys_%".toList n.toList)

/-! ### Invariant and mutation traces (claims C2/C3) -/

/-- Well-formedness of one table: distinct row ids, every row as wide
as the schema, and every id below the AUTOINCREMENT sequence. -/
def tableWF (td : TableData) : Bool :=
  decide ((td.rows.map Prod.fst).Nodup) &&
    td.rows.all (fun r => decide (r.2.length = td.cols.length)) &&
    td.rows.all (fun r => decide (r.1 < td.seq))

/-- Well-formedness of a journal entry on the undo stack with respect
to the current state: its table exists, every recorded id is below the
table's sequence, recorded images are as wide as the schema, a delete
entry's captured layout is the current layout and its row is currently
absent (so the re-insert cannot hit a primary-key conflict). -/
def entryWF (st : DBState) : UndoEntry → Bool
  | .insert t rid =>
    match lookupTable st t with
    | none => false
    | some td => decide (rid < td.seq)
  | .delete t rid old capCols =>
    match lookupTable st t with
    | none => false
    | some td =>
      decide (capCols = get_columns td) && decide (old.2.length = td.cols.length) &&
        decide (old.1 = rid) && decide (rid < td.seq) &&
        decide (¬ rid ∈ td.rows.map Prod.fst)
  | .update t rid old new =>
    match lookupTable st t with
    | none => false
    | some td =>
      decide (old.2.length = td.cols.length) && decide (rid < td.seq) &&
        (match new with
         | none => true
         | some nd => decide (nd.2.length = td.cols.length))

/-- The `(table, id)` keys of the delete entries of a stack. -/
def delKeys (s : List UndoEntry) : List (String × Int) :=
  s.filterMap (fun e => match e with
    | .delete t rid _ _ => some (t, rid)
    | _ => none)

/-- The session invariant used for the bounded-journal claim: distinct
table names, well-formed tables, well-formed undo entries, and
pairwise-distinct delete keys on the undo stack. -/
def Inv (st : DBState) : Prop :=
  (st.tables.map Prod.fst).Nodup ∧
    (∀ p ∈ st.tables, tableWF p.2 = true) ∧
    (∀ e ∈ st.undoStack, entryWF st e = true) ∧
    (delKeys st.undoStack).Nodup

instance : DecidablePred Inv := fun st => by
  unfold Inv; infer_instance

/-- A forward mutation of the record store. -/
inductive Mut where
  | ins (t : String) (data : List (String × SqlValue))
  | upd (t : String) (rid : Int) (data : List (String × SqlValue))
  | del (t : String) (rid : Int)
deriving DecidableEq

/-- Apply a mutation through the corresponding `DatabaseManager`
method. -/
def applyMut (st : DBState) : Mut → DBState × Bool
  | .ins t data => insert_record st t data
  | .upd t rid data => update_record st t rid data
  | .del t rid => delete_record st t rid

/-- Whether a row with the given id exists. -/
def existsRow (st : DBState) (t : String) (rid : Int) : Bool :=
  match lookupTable st t with
  | none => false
  | some td => td.rows.any (fun r => decide (r.1 = rid))

/-- A mutation journals when its call succeeds and pushes an undo
entry: always for a successful insert, and exactly when the target row
exists for updates and deletes. -/
def journals (st : DBState) (m : Mut) : Bool :=
  (applyMut st m).2 &&
    (match m with
     | .ins _ _ => true
     | .upd t rid _ => existsRow st t rid
     | .del t rid => existsRow st t rid)

/-! ## `src/auth.py`: the authentication gate -/

/-- The result of reading and JSON-decoding one field of the credential
file: missing key (`KeyError`), undecodable base64 (`binascii.Error`),
or the decoded bytes. -/
inductive JsonField where
  | absent
  | notB64
  | val (b : List Nat)
deriving DecidableEq

/-- The `iterations` field: absent (defaulted to 200000 by
`data.get`), not convertible by `int(...)` (`ValueError`), or a
value. -/
inductive IterField where
  | absent
  | notInt
  | val (n : Int)
deriving DecidableEq

/-- What reading the credential file at a path yields: the file is
missing, unreadable (I/O error), not JSON, or a JSON object with the
three fields in the states above. -/
inductive AuthFile where
  | missing
  | unreadable
  | badJson
  | parsed (salt : JsonField) (hash : JsonField) (iterations : IterField)
deriving DecidableEq

/-- `auth._load_auth`: extract `(salt, hash, iterations)`; any raised
exception is modelled as `none`. -/
def load_auth : AuthFile → Option (List Nat × List Nat × Int)
  | .parsed (.val s) (.val h) it =>
    match it with
    | .absent => some (s, h, 200000)
    | .notInt => none
    | .val n => some (s, h, n)
  | _ => none

/-- `auth.verify_password`, parametrized by the PBKDF2 derivation
(password, salt, iterations).  Missing file and every exception path
return `false`; otherwise the derived hash is compared with the stored
one (`hmac.compare_digest`; constant-time execution is not modelled,
only the compared value). -/
def verify_password (pbkdf2 : String → List Nat → Int → List Nat)
    (f : AuthFile) (password : String) : Bool :=
  match f with
  | .missing => false
  | _ =>
    match load_auth f with
    | none => false
    | some (salt, storedHash, iterations) =>
      decide (pbkdf2 password salt iterations = storedHash)

/-- A credential file that is missing, unreadable, or malformed (bad
JSON, or a missing/undecodable salt, hash or iteration field). -/
def credMalformed : AuthFile → Bool
  | .missing => true
  | .unreadable => true
  | .badJson => true
  | .parsed s h it =>
    (match s with | .val _ => false | _ => true) ||
      (match h with | .val _ => false | _ => true) ||
      (match it with | .notInt => true | _ => false)

/-! ## Crypto envelope (`DatabaseManager._encrypt_file` /
`_decrypt_to_temp`)

Modelled from the spec: the Fernet cipher itself is third-party library
code, not part of this repository; following spec section 4.1 it is
modelled as authenticated symmetric encryption — a token decrypts only
under the key that produced it, any other key raises `InvalidToken`.
The token is an injective encoding of (key, plaintext). -/

def fernetEncrypt (key data : List Nat) : List Nat :=
  key.length :: (key ++ data)

/-- Modelled from the spec: `Fernet(key).decrypt(token)` returns the
plaintext iff `token` was produced under `key`, else raises
`InvalidToken`. -/
def fernetDecrypt (key token : List Nat) : Except String (List Nat) :=
  match token with
  | [] => .error "InvalidToken"
  | n :: rest =>
    if n ≤ rest.length ∧ rest.take n = key then .ok (rest.drop n)
    else .error "InvalidToken"

/-- A flat file system: newest write first; `read` is the first
match. -/
abbrev FileSys := List (String × List Nat)

def fsRead (fs : FileSys) (path : String) : Option (List Nat) :=
  fs.lookup path

def fsWrite (fs : FileSys) (path : String) (data : List Nat) : FileSys :=
  (path, data) :: fs

/-- `DatabaseManager._encrypt_file`: read the source bytes, write the
Fernet token to the destination.  A missing source raises (`none`).
The Windows attribute/chmod side effects are not modelled. -/
def encrypt_file (key : List Nat) (fs : FileSys) (src dst : String) : Option FileSys :=
  match fsRead fs src with
  | none => none
  | some data => some (fsWrite fs dst (fernetEncrypt key data))

/-- `DatabaseManager._decrypt_to_temp`: read the encrypted bytes,
decrypt (re-raising `InvalidToken`), and write the plaintext to a fresh
temp file whose path is supplied here. -/
def decrypt_to_temp (key : List Nat) (fs : FileSys) (src tmp : String) :
    Except String FileSys :=
  match fsRead fs src with
  | none => .error "FileNotFound"
  | some ct =>
    match fernetDecrypt key ct with
    | .error e => .error e
    | .ok pt => .ok (fsWrite fs tmp pt)

/-! ### Concrete states used by witnesses and counterexamples -/

/-- The `Invoices` table of the spec's concrete scenario, already
holding row 1 = `("Acme", "2024-01-15")`. -/
def tdInv : TableData :=
  { cols := ["client", "due"]
    seq := 2
    rows := [(1, [SqlValue.text "Acme", SqlValue.text "2024-01-15"])] }

/-- A fresh session over the `Invoices` table. -/
def stInv : DBState :=
  { tables := [("Invoices", tdInv)]
    meta := []
    undoStack := []
    redoStack := [] }

/-- `stInv` after updating `due` to `"2024-02-01"` on row 1. -/
def stInv1 : DBState :=
  { tables := [("Invoices",
      { cols := ["client", "due"]
        seq := 2
        rows := [(1, [SqlValue.text "Acme", SqlValue.text "2024-02-01"])] })]
    meta := []
    undoStack := [UndoEntry.update "Invoices" 1
      (1, [SqlValue.text "Acme", SqlValue.text "2024-01-15"])
      (some (1, [SqlValue.text "Acme", SqlValue.text "2024-02-01"]))]
    redoStack := [] }

/-- A one-column table holding a single row with id 1. -/
def tdA : TableData :=
  { cols := ["a"], seq := 2, rows := [(1, [SqlValue.null])] }

/-- A state with table `t` = `tdA` and one entry on the redo stack. -/
def stA : DBState :=
  { tables := [("t", tdA)]
    meta := []
    undoStack := []
    redoStack := [UndoEntry.insert "t" 1] }

/-- A state whose top redo entry is an update entry without a captured
post-image. -/
def stC7 : DBState :=
  { tables := [("t", tdA)]
    meta := []
    undoStack := []
    redoStack := [UndoEntry.update "t" 1 (1, [SqlValue.int 0]) none] }

/-- A state with an empty table `t` and a non-empty redo stack. -/
def stEmptyT : DBState :=
  { tables := [("t", { cols := ["a"], seq := 1, rows := [] })]
    meta := []
    undoStack := []
    redoStack := [UndoEntry.insert "t" 0] }

/-- The state after four mutations in sequence. -/
def chain4 (st : DBState) (m1 m2 m3 m4 : Mut) : DBState :=
  (applyMut (applyMut (applyMut (applyMut st m1).1 m2).1 m3).1 m4).1

/-- A fresh session over an empty one-column table. -/
def stFresh : DBState :=
  { tables := [("t", { cols := ["a"], seq := 1, rows := [] })]
    meta := []
    undoStack := []
    redoStack := [] }

/-! # Theorems

## Serialization lemmas (`src/file_utils.py`) -/

theorem splitSemiSemi_sep (rest : List Char) :
    splitSemiSemi (';' :: ';' :: rest) = [] :: splitSemiSemi rest := by
  rw [splitSemiSemi]
  simp

theorem splitSemiSemi_cons (c : Char) (rest : List Char)
    (h : ¬(c = ';' ∧ rest.head? = some ';')) :
    splitSemiSemi (c :: rest) =
      match splitSemiSemi rest with
      | [] => [[c]]
      | r :: rs => (c :: r) :: rs := by
  cases rest with
  | nil => rfl
  | cons c2 r =>
    have hcc : ¬(c = ';' ∧ c2 = ';') := by
      rintro ⟨hx, hy⟩
      exact h ⟨hx, by simp [hy]⟩
    rw [splitSemiSemi, if_neg hcc]

theorem splitSemiSemi_no_semi (p : List Char) (h : ';' ∉ p) : splitSemiSemi p = [p] := by
  induction p with
  | nil => rfl
  | cons c t ih =>
    have hc : ¬(c = ';' ∧ t.head? = some ';') := by
      rintro ⟨rfl, -⟩
      exact h (List.mem_cons_self _ _)
    rw [splitSemiSemi_cons c t hc, ih (fun hm => h (List.mem_cons_of_mem _ hm))]

theorem splitSemiSemi_append_sep (p rest : List Char) (h : ';' ∉ p) :
    splitSemiSemi (p ++ ';' :: ';' :: rest) = p :: splitSemiSemi rest := by
  induction p with
  | nil => simpa using splitSemiSemi_sep rest
  | cons c t ih =>
    have hc : ¬(c = ';' ∧ (t ++ ';' :: ';' :: rest).head? = some ';') := by
      rintro ⟨rfl, -⟩
      exact h (List.mem_cons_self _ _)
    rw [List.cons_append, splitSemiSemi_cons c _ hc,
      ih (fun hm => h (List.mem_cons_of_mem _ hm))]

theorem splitPipeOnce_append (a b : List Char) (h : '|' ∉ a) :
    splitPipeOnce (a ++ '|' :: b) = (a, b) := by
  induction a with
  | nil => simp [splitPipeOnce]
  | cons c t ih =>
    have hc : c ≠ '|' := fun hh => h (hh ▸ List.mem_cons_self _ _)
    simp only [List.cons_append, splitPipeOnce, if_neg hc, List.append_eq,
      ih (fun hm => h (List.mem_cons_of_mem _ hm))]

theorem pyStrip_eq_self (s : List Char)
    (h1 : ∀ c, s.head? = some c → pyIsSpace c = false)
    (h2 : ∀ c, s.getLast? = some c → pyIsSpace c = false) :
    pyStrip s = s := by
  have hd : s.dropWhile pyIsSpace = s := by
    cases s with
    | nil => rfl
    | cons c t => simp [List.dropWhile_cons, h1 c rfl]
  have hr : s.reverse.dropWhile pyIsSpace = s.reverse := by
    cases hrev : s.reverse with
    | nil => rfl
    | cons c t =>
      have hgl : s.getLast? = some c := by
        rw [← List.head?_reverse, hrev, List.head?_cons]
      simp [List.dropWhile_cons, h2 c hgl]
  unfold pyStrip
  rw [hd, hr, List.reverse_reverse]

theorem goodComp_spec (s : List Char) (h : goodComp s = true) :
    s ≠ [] ∧ '|' ∉ s ∧ ';' ∉ s ∧
      (∀ c, s.head? = some c → pyIsSpace c = false) ∧
      (∀ c, s.getLast? = some c → pyIsSpace c = false) := by
  simp only [goodComp, Bool.and_eq_true] at h
  obtain ⟨⟨⟨⟨h1, h2⟩, h3⟩, h4⟩, h5⟩ := h
  refine ⟨by simpa using h1, by simpa using h2, by simpa using h3, ?_, ?_⟩
  · intro c hc
    rw [hc] at h4
    simpa using h4
  · intro c hc
    rw [hc] at h5
    simpa using h5

theorem format_file_value_ne_nil (a b : List Char) : format_file_value a b ≠ [] := by
  simp [format_file_value]

theorem semi_not_mem_format (a b : List Char) (ha : ';' ∉ a) (hb : ';' ∉ b) :
    ';' ∉ format_file_value a b := by
  intro hmem
  rcases List.mem_append.mp hmem with h | h
  · exact ha h
  · rcases List.mem_cons.mp h with h | h
    · exact absurd h (by decide)
    · exact hb h

theorem parse_file_value_format (a b : List Char) (ha1 : a ≠ []) (ha2 : '|' ∉ a) :
    parse_file_value (format_file_value a b) = (some a, some b) := by
  have hcont : (a ++ '|' :: b).contains '|' = true := by simp
  have hne : (a ++ '|' :: b).isEmpty = false := by
    cases a <;> rfl
  simp [parse_file_value, format_file_value, hne, hcont, splitPipeOnce_append a b ha2]

theorem parseMultiPart_format (a b : List Char) (ha : goodComp a = true)
    (hb : goodComp b = true) :
    parseMultiPart (format_file_value a b) = some (a, b) := by
  obtain ⟨ha1, ha2, ha3, ha4, ha5⟩ := goodComp_spec a ha
  obtain ⟨hb1, hb2, hb3, hb4, hb5⟩ := goodComp_spec b hb
  have h_head_eq : (format_file_value a b).head? = a.head? := by
    cases a with
    | nil => exact absurd rfl ha1
    | cons c0 t => rfl
  have h_last_eq : (format_file_value a b).getLast? = b.getLast? := by
    unfold format_file_value
    rw [show ('|' :: b) = ['|'] ++ b from rfl, ← List.append_assoc]
    exact List.getLast?_append_of_ne_nil _ hb1
  have hstrip : pyStrip (format_file_value a b) = format_file_value a b :=
    pyStrip_eq_self _ (fun c hc => ha4 c (h_head_eq ▸ hc))
      (fun c hc => hb5 c (h_last_eq ▸ hc))
  have hne : (format_file_value a b).isEmpty = false := by
    simpa using format_file_value_ne_nil a b
  have hea : a.isEmpty = false := by simpa using ha1
  have heb : b.isEmpty = false := by simpa using hb1
  simp only [parseMultiPart, hstrip, hne, parse_file_value_format a b ha1 ha2,
    hea, heb, Bool.or_self, if_false, Bool.false_eq_true]

/-- C4 counterexample: the round-trip fails as universally stated — for
the single pair of empty strings, `format` produces `"|"`, which
`parse_multi_file_value` drops (both components are falsy), giving `[]`
instead of the original list. -/
theorem multi_file_round_trip_cex :
    parse_multi_file_value (format_multi_file_value [(([] : List Char), ([] : List Char))]) ≠
      [(([] : List Char), ([] : List Char))] := by
  decide

/-- C4 (amended): for every list of (original_name, blob_name) pairs of
length 0, 1 or 3 whose components are non-empty, contain neither the
pair delimiter `'|'` nor the list-delimiter character `';'`, and do not
start or end with whitespace, `parse_multi_file_value ∘
format_multi_file_value` is the identity; and every single bare string
satisfying the same conditions parses to the one-element list whose
pair has both components equal to that string. -/
theorem multi_file_round_trip :
    (∀ files : List (List Char × List Char),
        (files.length = 0 ∨ files.length = 1 ∨ files.length = 3) →
        (∀ p ∈ files, goodComp p.1 = true ∧ goodComp p.2 = true) →
        parse_multi_file_value (format_multi_file_value files) = files) ∧
    (∀ s : List Char, goodComp s = true → parse_multi_file_value s = [(s, s)]) := by
  constructor
  · intro files hlen hgood
    rcases hlen with h0 | h1 | h3
    · rw [List.length_eq_zero] at h0
      subst h0
      rfl
    · obtain ⟨p, rfl⟩ := List.length_eq_one.mp h1
      obtain ⟨a, b⟩ := p
      obtain ⟨hga, hgb⟩ := hgood (a, b) (List.mem_singleton_self _)
      obtain ⟨ha1, ha2, ha3, -, -⟩ := goodComp_spec a hga
      obtain ⟨hb1, hb2, hb3, -, -⟩ := goodComp_spec b hgb
      have hfmt : format_multi_file_value [(a, b)] = format_file_value a b := rfl
      have hne : (format_file_value a b).isEmpty = false := by
        simpa using format_file_value_ne_nil a b
      rw [hfmt]
      unfold parse_multi_file_value
      rw [hne, splitSemiSemi_no_semi _ (semi_not_mem_format a b ha3 hb3)]
      simp [List.filterMap_cons, parseMultiPart_format a b hga hgb]
    · cases files with
      | nil => simp at h3
      | cons p1 f1 =>
        cases f1 with
        | nil => simp at h3
        | cons p2 f2 =>
          cases f2 with
          | nil => simp at h3
          | cons p3 f3 =>
            cases f3 with
            | cons p4 f4 =>
              simp only [List.length_cons] at h3
              omega
            | nil =>
              obtain ⟨a1, b1⟩ := p1
              obtain ⟨a2, b2⟩ := p2
              obtain ⟨a3, b3⟩ := p3
              obtain ⟨hg1a, hg1b⟩ := hgood (a1, b1) (by simp)
              obtain ⟨hg2a, hg2b⟩ := hgood (a2, b2) (by simp)
              obtain ⟨hg3a, hg3b⟩ := hgood (a3, b3) (by simp)
              obtain ⟨h11, h12, h13, -, -⟩ := goodComp_spec a1 hg1a
              obtain ⟨h14, h15, h16, -, -⟩ := goodComp_spec b1 hg1b
              obtain ⟨h21, h22, h23, -, -⟩ := goodComp_spec a2 hg2a
              obtain ⟨h24, h25, h26, -, -⟩ := goodComp_spec b2 hg2b
              obtain ⟨h31, h32, h33, -, -⟩ := goodComp_spec a3 hg3a
              obtain ⟨h34, h35, h36, -, -⟩ := goodComp_spec b3 hg3b
              have hfmt : format_multi_file_value [(a1, b1), (a2, b2), (a3, b3)] =
                  format_file_value a1 b1 ++ ';' :: ';' ::
                    (format_file_value a2 b2 ++ ';' :: ';' :: format_file_value a3 b3) := by
                simp [format_multi_file_value, joinSemiSemi]
              have hne : (format_file_value a1 b1 ++ ';' :: ';' ::
                  (format_file_value a2 b2 ++ ';' :: ';' ::
                    format_file_value a3 b3)).isEmpty = false := by
                cases hx : format_file_value a1 b1 with
                | nil => exact absurd hx (format_file_value_ne_nil a1 b1)
                | cons u v => rfl
              rw [hfmt]
              unfold parse_multi_file_value
              rw [hne,
                splitSemiSemi_append_sep _ _ (semi_not_mem_format a1 b1 h13 h16),
                splitSemiSemi_append_sep _ _ (semi_not_mem_format a2 b2 h23 h26),
                splitSemiSemi_no_semi _ (semi_not_mem_format a3 b3 h33 h36)]
              simp [List.filterMap_cons, parseMultiPart_format a1 b1 hg1a hg1b,
                parseMultiPart_format a2 b2 hg2a hg2b,
                parseMultiPart_format a3 b3 hg3a hg3b]
  · intro s hs
    obtain ⟨h1, h2, h3, h4, h5⟩ := goodComp_spec s hs
    have hne : s.isEmpty = false := by simpa using h1
    have hcont : s.contains '|' = false := by simpa using h2
    unfold parse_multi_file_value
    rw [hne, splitSemiSemi_no_semi s h3]
    have hpf : parse_file_value s = (some s, some s) := by
      simp only [parse_file_value, hne, hcont, Bool.false_eq_true, if_false]
    simp [List.filterMap_cons, parseMultiPart, pyStrip_eq_self s h4 h5, hne, hpf]

/-- Witness for the amended C4 at concrete inputs. -/
theorem multi_file_round_trip_witness :
    parse_multi_file_value (format_multi_file_value [("doc.txt".toList, "blob1.enc".toList)]) =
      [("doc.txt".toList, "blob1.enc".toList)] ∧
    parse_multi_file_value "legacy.bin".toList =
      [("legacy.bin".toList, "legacy.bin".toList)] :=
  ⟨multi_file_round_trip.1 [("doc.txt".toList, "blob1.enc".toList)]
      (Or.inr (Or.inl rfl)) (by decide),
    multi_file_round_trip.2 "legacy.bin".toList (by decide)⟩

/-! ## SQL LIKE lemmas and claim C10 -/

theorem likeMatch_percent_all (s : List Char) : likeMatch ['%'] s = true := by
  show tryTails (likeMatch []) s = true
  induction s with
  | nil => rfl
  | cons c t ih =>
    show (likeMatch [] (c :: t) || tryTails (likeMatch []) t) = true
    rw [ih, Bool.or_true]

theorem likeMatch_sys (c : Char) (rest : List Char) :
    likeMatch ['_', 's', 'y', 's', '_', '%'] (c :: 's' :: 'y' :: 's' :: '_' :: rest) = true := by
  show likeMatch ['%'] rest = true
  exact likeMatch_percent_all rest

theorem likeMatch_sqlite (c : Char) (rest : List Char) :
    likeMatch ['s', 'q', 'l', 'i', 't', 'e', '_', '%']
      ('s' :: 'q' :: 'l' :: 'i' :: 't' :: 'e' :: c :: rest) = true := by
  show likeMatch ['%'] rest = true
  exact likeMatch_percent_all rest

/-- C10: `get_tables` filters with SQL LIKE, where `_` is a
single-character wildcard: every name of the form any-single-character
followed by `"sys_"` (it matches `'_sys_%'`), and every name of the
form `"sqlite"` plus any character plus anything (it matches
`'sqlite_%'`), is omitted from the listing — not only names literally
starting with `"_sys_"` or `"sqlite_"`. -/
theorem get_tables_like_filter (st : DBState) (name : String)
    (h : (∃ c rest, name.toList = c :: 's' :: 'y' :: 's' :: '_' :: rest) ∨
      (∃ c rest, name.toList = 's' :: 'q' :: 'l' :: 'i' :: 't' :: 'e' :: c :: rest)) :
    name ∉ get_tables st := by
  intro hmem
  unfold get_tables at hmem
  rw [List.mem_filter] at hmem
  obtain ⟨-, hcond⟩ := hmem
  rcases h with ⟨c, rest, hn⟩ | ⟨c, rest, hn⟩
  · rw [hn] at hcond
    simp [likeMatch_sys c rest] at hcond
  · rw [hn] at hcond
    simp [likeMatch_sqlite c rest] at hcond

/-- Witness for C10: the table named `Xsys_data` (which does not start
with a literal `_sys_` or `sqlite_`) is omitted from `get_tables`. -/
theorem get_tables_like_filter_witness :
    ("Xsys_data" : String) ∉ get_tables
      { tables := [("Xsys_data", { cols := ["a"], seq := 1, rows := [] })],
        meta := [], undoStack := [], redoStack := [] } :=
  get_tables_like_filter _ _ (Or.inl ⟨'X', "data".toList, by decide⟩)

/-! ## Record-store list lemmas -/

theorem replace_head_eq (k : String) (v td : TableData) (t : String) (h : k = t) :
    (if (k, v).1 = t then (t, td) else (k, v)) = (t, td) := if_pos h

theorem replace_head_ne (k : String) (v td : TableData) (t : String) (h : ¬ k = t) :
    (if (k, v).1 = t then (t, td) else (k, v)) = (k, v) := if_neg h

theorem lookup_map_replace (l : List (String × TableData)) (t : String) (td : TableData)
    (h : (assoc l t).isSome) :
    assoc (l.map (fun p => if p.1 = t then (t, td) else p)) t = some td := by
  induction l with
  | nil => simp [assoc] at h
  | cons p l ih =>
    obtain ⟨k, v⟩ := p
    rw [List.map_cons]
    by_cases hp : k = t
    · subst hp
      rw [replace_head_eq k v td k rfl]
      simp [assoc]
    · rw [replace_head_ne k v td t hp]
      simp only [assoc]
      rw [if_neg hp]
      apply ih
      simp only [assoc] at h
      rw [if_neg hp] at h
      exact h

theorem lookup_map_replace_other (l : List (String × TableData)) (t t' : String)
    (td : TableData) (h : t' ≠ t) :
    assoc (l.map (fun p => if p.1 = t then (t, td) else p)) t' = assoc l t' := by
  induction l with
  | nil => rfl
  | cons p l ih =>
    obtain ⟨k, v⟩ := p
    rw [List.map_cons]
    by_cases hp : k = t
    · subst hp
      rw [replace_head_eq k v td k rfl]
      simp only [assoc]
      rw [if_neg (fun hc => h hc.symm), if_neg (fun hc => h hc.symm), ih]
    · rw [replace_head_ne k v td t hp]
      simp only [assoc, ih]

theorem map_replace_fst (l : List (String × TableData)) (t : String) (td : TableData) :
    (l.map (fun p => if p.1 = t then (t, td) else p)).map Prod.fst = l.map Prod.fst := by
  induction l with
  | nil => rfl
  | cons p l ih =>
    obtain ⟨k, v⟩ := p
    by_cases hp : k = t
    · subst hp
      simp [ih]
    · simp [hp, ih]

theorem map_replace_not_mem (l : List (String × TableData)) (t : String) (td : TableData)
    (h : t ∉ l.map Prod.fst) :
    l.map (fun p => if p.1 = t then (t, td) else p) = l := by
  induction l with
  | nil => rfl
  | cons p l ih =>
    obtain ⟨k, v⟩ := p
    simp only [List.map_cons, List.mem_cons] at h
    obtain ⟨h1, h2⟩ := not_or.mp h
    rw [List.map_cons, replace_head_ne k v td t (fun hc => h1 hc.symm), ih h2]

theorem lookup_map_replace_id (l : List (String × TableData)) (t : String) (td : TableData)
    (hN : (l.map Prod.fst).Nodup) (h : assoc l t = some td) :
    l.map (fun p => if p.1 = t then (t, td) else p) = l := by
  induction l with
  | nil => rfl
  | cons p l ih =>
    obtain ⟨k, v⟩ := p
    simp only [List.map_cons, List.nodup_cons] at hN
    obtain ⟨hk, hN'⟩ := hN
    by_cases hkt : k = t
    · subst hkt
      have hv : v = td := by
        simp only [assoc] at h
        simpa using h
      subst hv
      rw [List.map_cons, replace_head_eq k v v k rfl, map_replace_not_mem l k v hk]
    · have h' : assoc l t = some td := by
        simp only [assoc] at h
        rw [if_neg hkt] at h
        exact h
      rw [List.map_cons, replace_head_ne k v td t hkt, ih hN' h']

theorem lookupTable_setTable_self (st : DBState) (t : String) (td0 td : TableData)
    (h : lookupTable st t = some td0) :
    lookupTable (setTable st t td) t = some td :=
  lookup_map_replace st.tables t td (by rw [lookupTable] at h; rw [h]; rfl)

theorem lookupTable_setTable_other (st : DBState) (t t' : String) (td : TableData)
    (h : t' ≠ t) :
    lookupTable (setTable st t td) t' = lookupTable st t' :=
  lookup_map_replace_other st.tables t t' td h

theorem setTable_fst (st : DBState) (t : String) (td : TableData) :
    (setTable st t td).tables.map Prod.fst = st.tables.map Prod.fst :=
  map_replace_fst st.tables t td

theorem setTable_self (st : DBState) (t : String) (td : TableData)
    (hN : (st.tables.map Prod.fst).Nodup) (h : lookupTable st t = some td) :
    setTable st t td = st := by
  unfold setTable
  rw [lookup_map_replace_id st.tables t td hN h]

theorem filter_id_nil (rows : List SqlRow) (rid : Int) (h : rid ∉ rows.map Prod.fst) :
    rows.filter (fun r => decide (r.1 = rid)) = [] := by
  rw [List.filter_eq_nil_iff]
  intro r hr
  simp only [decide_eq_true_eq]
  intro hc
  exact h (hc ▸ List.mem_map_of_mem Prod.fst hr)

theorem filter_id_singleton (rows : List SqlRow) (rid : Int) (f : List SqlValue)
    (hnd : (rows.map Prod.fst).Nodup) (hmem : (rid, f) ∈ rows) :
    rows.filter (fun r => decide (r.1 = rid)) = [(rid, f)] := by
  induction rows with
  | nil => simp at hmem
  | cons r l ih =>
    simp only [List.map_cons, List.nodup_cons] at hnd
    obtain ⟨hr, hnd'⟩ := hnd
    rcases List.mem_cons.mp hmem with heq | hmem'
    · rw [← heq] at hr ⊢
      rw [List.filter_cons_of_pos (by simp)]
      rw [filter_id_nil l rid (by simpa using hr)]
    · have hr1 : r.1 ≠ rid := by
        intro hc
        exact hr (hc ▸ List.mem_map_of_mem Prod.fst hmem')
      rw [List.filter_cons_of_neg (by simpa using hr1), ih hnd' hmem']

theorem setRowsBy_map_fst (rows : List SqlRow) (rid : Int) (f : SqlRow → List SqlValue) :
    (setRowsBy rows rid f).map Prod.fst = rows.map Prod.fst := by
  unfold setRowsBy
  rw [List.map_map]
  apply List.map_congr_left
  intro r hr
  by_cases h : r.1 = rid <;> simp [h]

theorem setRowsBy_of_not_mem (rows : List SqlRow) (rid : Int) (f : SqlRow → List SqlValue)
    (h : rid ∉ rows.map Prod.fst) :
    setRowsBy rows rid f = rows := by
  unfold setRowsBy
  induction rows with
  | nil => rfl
  | cons r l ih =>
    simp only [List.map_cons, List.mem_cons] at h
    obtain ⟨h1, h2⟩ := not_or.mp h
    rw [List.map_cons, if_neg (fun hc => h1 hc.symm), ih h2]

theorem mem_setRowsBy (rows : List SqlRow) (rid : Int) (f : SqlRow → List SqlValue)
    (fl : List SqlValue) (hmem : (rid, fl) ∈ rows) :
    (rid, f (rid, fl)) ∈ setRowsBy rows rid f := by
  have := List.mem_map_of_mem (fun r => if r.1 = rid then (r.1, f r) else r) hmem
  simpa [setRowsBy] using this

theorem filter_setRowsBy (rows : List SqlRow) (rid : Int) (f : SqlRow → List SqlValue)
    (fl : List SqlValue) (hnd : (rows.map Prod.fst).Nodup) (hmem : (rid, fl) ∈ rows) :
    (setRowsBy rows rid f).filter (fun r => decide (r.1 = rid)) = [(rid, f (rid, fl))] :=
  filter_id_singleton _ rid _ (by rw [setRowsBy_map_fst]; exact hnd)
    (mem_setRowsBy rows rid f fl hmem)

theorem deleteRows_of_not_mem (rows : List SqlRow) (rid : Int)
    (h : rid ∉ rows.map Prod.fst) :
    deleteRows rows rid = rows := by
  rw [deleteRows, List.filter_eq_self]
  intro r hr
  simp only [Bool.not_eq_true', decide_eq_false_iff_not]
  intro hc
  exact h (hc ▸ List.mem_map_of_mem Prod.fst hr)

theorem head?_isSome_of_any (rows : List SqlRow) (rid : Int)
    (h : rows.any (fun r => decide (r.1 = rid)) = true) :
    ((rows.filter (fun r => decide (r.1 = rid))).head?).isSome = true := by
  obtain ⟨r, hr, hp⟩ := List.any_eq_true.mp h
  have hmem : r ∈ rows.filter (fun r => decide (r.1 = rid)) :=
    List.mem_filter.mpr ⟨hr, hp⟩
  cases hf : rows.filter (fun r => decide (r.1 = rid)) with
  | nil => rw [hf] at hmem; simp at hmem
  | cons x xs => rfl

theorem any_id_eq (rows : List SqlRow) (rid : Int) :
    rows.any (fun r => decide (r.1 = rid)) =
      (rows.map Prod.fst).any (fun i => decide (i = rid)) := by
  induction rows with
  | nil => rfl
  | cons r l ih => simp only [List.any_cons, List.map_cons, ih]

/-! ## Step lemmas for `undo` / `redo` -/

theorem setTable_undoStack (st : DBState) (t : String) (td : TableData) :
    (setTable st t td).undoStack = st.undoStack := rfl

theorem setTable_redoStack (st : DBState) (t : String) (td : TableData) :
    (setTable st t td).redoStack = st.redoStack := rfl

theorem applyUpdate_length (cols : List String) (fields : List SqlValue)
    (data : List (String × SqlValue)) :
    (applyUpdate cols fields data).length = min cols.length fields.length := by
  simp [applyUpdate]

theorem get_records_id_set (st : DBState) (t : String) (td0 td : TableData) (rid : Int)
    (hT : lookupTable st t = some td0) :
    get_records_id (setTable st t td) t rid = recordsById td rid := by
  unfold get_records_id
  rw [lookupTable_setTable_self st t td0 td hT]

theorem undo_nil (st : DBState) (h : st.undoStack = []) :
    undo st = (st, false, "Nessuna operazione da annullare") := by
  unfold undo
  rw [h]

theorem undo_insert_step (st : DBState) (t : String) (rid : Int) (rest : List UndoEntry)
    (td : TableData)
    (hS : st.undoStack = UndoEntry.insert t rid :: rest)
    (hT : lookupTable st t = some td) :
    undo st = ({ setTable st t (deletedTable td rid) with
        undoStack := rest
        redoStack := pushBounded (UndoEntry.insert t rid) st.redoStack },
      true, "Operazione annullata: insert") := by
  simp [setTable_undoStack, setTable_redoStack, undo, hS, hT]

theorem undo_delete_step (st : DBState) (t : String) (rid : Int) (old : SqlRow)
    (capCols : List String) (rest : List UndoEntry) (td : TableData)
    (hS : st.undoStack = UndoEntry.delete t rid old capCols :: rest)
    (hT : lookupTable st t = some td)
    (hcap : capCols = get_columns td)
    (hlen : old.2.length = td.cols.length)
    (habs : old.1 ∉ td.rows.map Prod.fst) :
    undo st = ({ setTable st t (restoredTable td old) with
        undoStack := rest
        redoStack := pushBounded (UndoEntry.delete t rid old capCols) st.redoStack },
      true, "Operazione annullata: delete") := by
  simp [setTable_undoStack, setTable_redoStack, undo, hS, hT, hcap, hlen, habs]

theorem undo_update_step (st : DBState) (t : String) (rid : Int) (old : SqlRow)
    (new : Option SqlRow) (rest : List UndoEntry) (td : TableData)
    (hS : st.undoStack = UndoEntry.update t rid old new :: rest)
    (hT : lookupTable st t = some td)
    (hlen : old.2.length = td.cols.length) :
    undo st = ({ setTable st t (setFieldsTable td rid old.2) with
        undoStack := rest
        redoStack := pushBounded (UndoEntry.update t rid old new) st.redoStack },
      true, "Operazione annullata: update") := by
  simp [setTable_undoStack, setTable_redoStack, undo, hS, hT, hlen]

theorem redo_update_step (st : DBState) (t : String) (rid : Int) (old : SqlRow)
    (nd : SqlRow) (rest : List UndoEntry) (td : TableData)
    (hS : st.redoStack = UndoEntry.update t rid old (some nd) :: rest)
    (hT : lookupTable st t = some td)
    (hlen : nd.2.length = td.cols.length) :
    redo st = ({ setTable st t (setFieldsTable td rid nd.2) with
        redoStack := rest
        undoStack := pushBounded (UndoEntry.update t rid old (some nd)) st.undoStack },
      true, "Operazione ripristinata: update") := by
  simp [setTable_undoStack, setTable_redoStack, redo, hS, hT, hlen]

/-! ## Claim C1: update / undo / redo round trip -/

/-- C1: for every table in the database and every row with id present
in it, after a successful (well-formed) `update_record` on that row,
`undo()` succeeds and `get_records` (filtered on that id) shows the
pre-update image — every non-id column restored — and a subsequent
`redo()` succeeds and shows the post-update image again. -/
theorem update_undo_redo_round_trip (st : DBState) (t : String) (td : TableData)
    (rid : Int) (fields : List SqlValue) (data : List (String × SqlValue)) (st1 : DBState)
    (hT : lookupTable st t = some td)
    (hnd : (td.rows.map Prod.fst).Nodup)
    (hlen : fields.length = td.cols.length)
    (hRow : (rid, fields) ∈ td.rows)
    (hUpd : update_record st t rid data = (st1, true)) :
    (undo st1).2.1 = true ∧
      get_records_id (undo st1).1 t rid = get_records_id st t rid ∧
      (redo (undo st1).1).2.1 = true ∧
      get_records_id (redo (undo st1).1).1 t rid = get_records_id st1 t rid := by
  have hv : validData td data = true := by
    by_contra hv
    simp [update_record, hT, hv] at hUpd
  have hold : recordsById td rid = [(rid, fields)] :=
    filter_id_singleton td.rows rid fields hnd hRow
  have hnew : recordsById (updatedTable td rid data) rid
      = [(rid, applyUpdate td.cols fields data)] :=
    filter_setRowsBy td.rows rid _ fields hnd hRow
  have hst1 : st1 = { setTable st t (updatedTable td rid data) with
      undoStack := pushBounded (UndoEntry.update t rid (rid, fields)
        (some (rid, applyUpdate td.cols fields data))) st.undoStack
      redoStack := [] } := by
    have h1 := congrArg Prod.fst hUpd
    simp [update_record, hT, hv, hold, hnew] at h1
    exact h1.symm
  have hst1undo : st1.undoStack = UndoEntry.update t rid (rid, fields)
      (some (rid, applyUpdate td.cols fields data)) :: st.undoStack.take 2 := by
    rw [hst1]
    rfl
  have hst1redo : st1.redoStack = [] := by
    rw [hst1]
  have hst1tables : st1.tables = (setTable st t (updatedTable td rid data)).tables := by
    rw [hst1]
  have hT1 : lookupTable st1 t = some (updatedTable td rid data) := by
    unfold lookupTable
    rw [hst1tables]
    exact lookupTable_setTable_self st t td (updatedTable td rid data) hT
  have ndTD : ((updatedTable td rid data).rows.map Prod.fst).Nodup := by
    have hre : (updatedTable td rid data).rows =
        setRowsBy td.rows rid (fun r => applyUpdate td.cols r.2 data) := rfl
    rw [hre, setRowsBy_map_fst]
    exact hnd
  have memTD : (rid, applyUpdate td.cols fields data) ∈ (updatedTable td rid data).rows :=
    mem_setRowsBy td.rows rid (fun r => applyUpdate td.cols r.2 data) fields hRow
  have hrec2 : recordsById (setFieldsTable (updatedTable td rid data) rid fields) rid
      = [(rid, fields)] :=
    filter_setRowsBy (updatedTable td rid data).rows rid (fun _ => fields)
      (applyUpdate td.cols fields data) ndTD memTD
  have hG0 : get_records_id st t rid = [(rid, fields)] := by
    unfold get_records_id
    rw [hT]
    exact hold
  have hG1 : get_records_id st1 t rid = [(rid, applyUpdate td.cols fields data)] := by
    unfold get_records_id
    rw [hT1]
    exact hnew
  have hU := undo_update_step st1 t rid (rid, fields)
    (some (rid, applyUpdate td.cols fields data)) (st.undoStack.take 2)
    (updatedTable td rid data) hst1undo hT1 hlen
  have hT2 : lookupTable ({ setTable st1 t
      (setFieldsTable (updatedTable td rid data) rid fields) with
      undoStack := st.undoStack.take 2
      redoStack := pushBounded (UndoEntry.update t rid (rid, fields)
        (some (rid, applyUpdate td.cols fields data))) st1.redoStack }) t
      = some (setFieldsTable (updatedTable td rid data) rid fields) :=
    lookupTable_setTable_self st1 t (updatedTable td rid data)
      (setFieldsTable (updatedTable td rid data) rid fields) hT1
  have hS2redo : ({ setTable st1 t
      (setFieldsTable (updatedTable td rid data) rid fields) with
      undoStack := st.undoStack.take 2
      redoStack := pushBounded (UndoEntry.update t rid (rid, fields)
        (some (rid, applyUpdate td.cols fields data))) st1.redoStack } :
        DBState).redoStack
      = UndoEntry.update t rid (rid, fields)
          (some (rid, applyUpdate td.cols fields data)) :: [] := by
    simp [pushBounded, hst1redo]
  have hlen2 : (applyUpdate td.cols fields data).length =
      (setFieldsTable (updatedTable td rid data) rid fields).cols.length := by
    rw [applyUpdate_length, hlen]
    exact min_self _
  have hR := redo_update_step _ t rid (rid, fields)
    (rid, applyUpdate td.cols fields data) []
    (setFieldsTable (updatedTable td rid data) rid fields) hS2redo hT2 hlen2
  have ndY : (((setFieldsTable (updatedTable td rid data) rid fields).rows).map
      Prod.fst).Nodup := by
    have hre : (setFieldsTable (updatedTable td rid data) rid fields).rows =
        setRowsBy (updatedTable td rid data).rows rid (fun _ => fields) := rfl
    rw [hre, setRowsBy_map_fst]
    exact ndTD
  have memY : (rid, fields) ∈ (setFieldsTable (updatedTable td rid data) rid fields).rows :=
    mem_setRowsBy (updatedTable td rid data).rows rid (fun _ => fields)
      (applyUpdate td.cols fields data) memTD
  have hrec3 : recordsById (setFieldsTable
      (setFieldsTable (updatedTable td rid data) rid fields) rid
      (applyUpdate td.cols fields data)) rid
      = [(rid, applyUpdate td.cols fields data)] :=
    filter_setRowsBy (setFieldsTable (updatedTable td rid data) rid fields).rows rid
      (fun _ => applyUpdate td.cols fields data) fields ndY memY
  rw [hU]
  refine ⟨rfl, ?_, ?_, ?_⟩
  · rw [hG0]
    exact (get_records_id_set st1 t (updatedTable td rid data)
      (setFieldsTable (updatedTable td rid data) rid fields) rid hT1).trans hrec2
  · rw [hR]
  · rw [hR, hG1]
    exact (get_records_id_set _ t (setFieldsTable (updatedTable td rid data) rid fields)
      (setFieldsTable (setFieldsTable (updatedTable td rid data) rid fields) rid
        (applyUpdate td.cols fields data)) rid hT2).trans hrec3

/-- Witness for C1: the spec's concrete `Invoices` scenario. -/
theorem update_undo_redo_round_trip_witness :
    (undo stInv1).2.1 = true ∧
      get_records_id (undo stInv1).1 "Invoices" 1 = get_records_id stInv "Invoices" 1 ∧
      (redo (undo stInv1).1).2.1 = true ∧
      get_records_id (redo (undo stInv1).1).1 "Invoices" 1 =
        get_records_id stInv1 "Invoices" 1 :=
  update_undo_redo_round_trip stInv "Invoices" tdInv 1
    [SqlValue.text "Acme", SqlValue.text "2024-01-15"]
    [("due", SqlValue.text "2024-02-01")] stInv1
    (by decide) (by decide) (by decide) (by decide) (by decide)

/-! ## Claim C7: redo of an update entry without post-image -/

/-- C7: whenever the top entry of the redo stack is an `update` entry
lacking a captured post-image, `redo()` returns a failure flag with the
explanatory message and leaves the row data of every table (in
particular the affected one) unchanged: no SQL update is applied. -/
theorem redo_missing_post_image (st : DBState) (t : String) (rid : Int) (old : SqlRow)
    (rest : List UndoEntry)
    (h : st.redoStack = UndoEntry.update t rid old none :: rest) :
    (redo st).1.tables = st.tables ∧ (redo st).2.1 = false ∧
      (redo st).2.2 = "Dati insufficienti per ripristinare update" := by
  unfold redo
  rw [h]
  exact ⟨rfl, rfl, rfl⟩

/-- Witness for C7 at a concrete state. -/
theorem redo_missing_post_image_witness :
    (redo stC7).1.tables = stC7.tables ∧ (redo stC7).2.1 = false ∧
      (redo stC7).2.2 = "Dati insufficienti per ripristinare update" :=
  redo_missing_post_image stC7 "t" 1 (1, [SqlValue.int 0]) [] rfl

/-! ## Claim C9: mutations on a missing id succeed without journaling -/

/-- C9: for a table in the database and an id matching no existing row,
a (well-formed) `update_record` call and a `delete_record` call still
return `True`, and the state — in particular the undo stack (no entry
pushed) and the redo stack (left as it was, not cleared) — is entirely
unchanged. -/
theorem noop_mutation_returns_true (st : DBState) (t : String) (td : TableData) (rid : Int)
    (data : List (String × SqlValue))
    (hN : (st.tables.map Prod.fst).Nodup)
    (hT : lookupTable st t = some td)
    (hRid : rid ∉ td.rows.map Prod.fst)
    (hData : validData td data = true) :
    update_record st t rid data = (st, true) ∧ delete_record st t rid = (st, true) := by
  have hrows : recordsById td rid = [] := filter_id_nil td.rows rid hRid
  have htd1 : updatedTable td rid data = td := by
    unfold updatedTable
    rw [setRowsBy_of_not_mem td.rows rid _ hRid]
  have htd2 : deletedTable td rid = td := by
    unfold deletedTable
    rw [deleteRows_of_not_mem td.rows rid hRid]
  constructor
  · simp [update_record, hT, hData, htd1, hrows, setTable_self st t td hN hT]
  · simp [delete_record, hT, htd2, hrows, setTable_self st t td hN hT]

/-- Witness for C9 at a concrete state (id 5 matches no row). -/
theorem noop_mutation_returns_true_witness :
    update_record stA "t" 5 [("a", SqlValue.int 3)] = (stA, true) ∧
      delete_record stA "t" 5 = (stA, true) :=
  noop_mutation_returns_true stA "t" tdA 5 [("a", SqlValue.int 3)]
    (by decide) (by decide) (by decide) (by decide)

/-! ## Claim C3: forward mutations and the redo stack -/

/-- C3 counterexample: a successful `update_record` on an id matching
no row leaves a non-empty redo stack in place, so it is not the case
that after every successful mutation the redo stack is empty. -/
theorem mutation_clears_redo_cex :
    (update_record stEmptyT "t" 0 [("a", SqlValue.int 1)]).2 = true ∧
      (update_record stEmptyT "t" 0 [("a", SqlValue.int 1)]).1.redoStack =
        [UndoEntry.insert "t" 0] := by
  decide

/-- C3 (amended): every successful mutation that records an undo entry
(an insert, or an update/delete whose id matches an existing row)
clears the redo stack; a successful no-op update or delete leaves the
redo stack unchanged instead (see the counterexample and C9). -/
theorem mutation_clears_redo (st : DBState) (m : Mut) (st' : DBState)
    (hj : journals st m = true) (happ : applyMut st m = (st', true)) :
    st'.redoStack = [] := by
  have hst : st' = (applyMut st m).1 := by rw [happ]
  have h2 : (applyMut st m).2 = true := by rw [happ]
  rw [hst]
  cases m with
  | ins t data =>
    cases hL : lookupTable st t with
    | none => simp [applyMut, insert_record, hL] at h2
    | some td =>
      by_cases hv : validData td data = true
      · simp [applyMut, insert_record, hL, hv]
      · simp [applyMut, insert_record, hL, hv] at h2
  | upd t rid data =>
    simp only [journals, Bool.and_eq_true] at hj
    obtain ⟨-, hex⟩ := hj
    cases hL : lookupTable st t with
    | none => simp [existsRow, hL] at hex
    | some td =>
      simp only [existsRow, hL] at hex
      by_cases hv : validData td data = true
      · obtain ⟨o, ho⟩ := Option.isSome_iff_exists.mp (head?_isSome_of_any td.rows rid hex)
        have hex2 : (updatedTable td rid data).rows.any (fun r => decide (r.1 = rid)) = true := by
          have hre : (updatedTable td rid data).rows =
              setRowsBy td.rows rid (fun r => applyUpdate td.cols r.2 data) := rfl
          rw [hre, any_id_eq, setRowsBy_map_fst, ← any_id_eq]
          exact hex
        obtain ⟨n, hn⟩ := Option.isSome_iff_exists.mp
          (head?_isSome_of_any (updatedTable td rid data).rows rid hex2)
        simp [applyMut, update_record, hL, hv, recordsById, ho, hn]
      · simp [applyMut, update_record, hL, hv] at h2
  | del t rid =>
    simp only [journals, Bool.and_eq_true] at hj
    obtain ⟨-, hex⟩ := hj
    cases hL : lookupTable st t with
    | none => simp [existsRow, hL] at hex
    | some td =>
      simp only [existsRow, hL] at hex
      obtain ⟨o, ho⟩ := Option.isSome_iff_exists.mp (head?_isSome_of_any td.rows rid hex)
      simp [applyMut, delete_record, hL, recordsById, ho]

/-- Witness for the amended C3: a successful insert empties a
previously non-empty redo stack. -/
theorem mutation_clears_redo_witness :
    (applyMut stEmptyT (Mut.ins "t" [("a", SqlValue.int 7)])).1.redoStack = [] :=
  mutation_clears_redo stEmptyT (Mut.ins "t" [("a", SqlValue.int 7)])
    (applyMut stEmptyT (Mut.ins "t" [("a", SqlValue.int 7)])).1 (by decide) (by decide)

/-! ## Claim C5: renaming a column keeps special-type metadata consistent -/

/-- C5: for every table `t` with a column `d` carrying special-type
metadata, after a successful `rename_column(t, d, d2)` (to a genuinely
new name `d2 ≠ d`), `get_special_type(t, d2)` returns that special type
(with its extra info) and `get_special_type(t, d)` returns nothing. -/
theorem rename_column_special_type (st st' : DBState) (t d d2 sp ex : String)
    (hMem : ({ table := t, col := d, special := sp, extra := ex } : SysCol) ∈ st.meta)
    (hNe : d2 ≠ d)
    (hOk : rename_column st t d d2 = (st', true)) :
    get_special_type st' t d2 = some (sp, ex) ∧ get_special_type st' t d = none := by
  cases hL : lookupTable st t with
  | none => simp [rename_column, hL] at hOk
  | some td =>
    by_cases hcol : d ∈ td.cols ∧ (d2 ∉ get_columns td ∨ d2 = d)
    · by_cases hnd : (metaKeys (st.meta.map
          (fun r => if r.table = t ∧ r.col = d then { r with col := d2 } else r))).Nodup
      · have hmeta : st'.meta = st.meta.map
            (fun r => if r.table = t ∧ r.col = d then { r with col := d2 } else r) := by
          have h1 := congrArg Prod.fst hOk
          simp [rename_column, hL, hcol, hnd] at h1
          rw [← h1]
        have hr0 : ({ table := t, col := d2, special := sp, extra := ex } : SysCol) ∈
            st'.meta := by
          rw [hmeta]
          have := List.mem_map_of_mem
            (fun r => if r.table = t ∧ r.col = d then { r with col := d2 } else r) hMem
          simpa using this
        constructor
        · unfold get_special_type
          have hsome : ((st'.meta.find? (fun r => decide (r.table = t) &&
              decide (r.col = d2)))).isSome := by
            rw [List.find?_isSome]
            exact ⟨_, hr0, by simp⟩
          obtain ⟨r, hfind⟩ := Option.isSome_iff_exists.mp hsome
          have hrp := List.find?_some hfind
          have hrm := List.mem_of_find?_eq_some hfind
          simp only [Bool.and_eq_true, decide_eq_true_eq] at hrp
          have hndmeta : (st'.meta.map (fun r : SysCol => (r.table, r.col))).Nodup := by
            rw [hmeta]
            exact hnd
          have hreq : r = { table := t, col := d2, special := sp, extra := ex } :=
            List.inj_on_of_nodup_map hndmeta hrm hr0 (by rw [hrp.1, hrp.2])
          rw [hfind, hreq]
          rfl
        · unfold get_special_type
          rw [List.find?_eq_none.mpr]
          · rfl
          · intro r hr
            rw [hmeta] at hr
            obtain ⟨q, hq, hqr⟩ := List.mem_map.mp hr
            intro hcontra
            simp only [Bool.and_eq_true, decide_eq_true_eq] at hcontra
            obtain ⟨h1, h2⟩ := hcontra
            by_cases hmatch : q.table = t ∧ q.col = d
            · rw [if_pos hmatch] at hqr
              rw [← hqr] at h2
              exact hNe h2
            · rw [if_neg hmatch] at hqr
              subst hqr
              exact hmatch ⟨h1, h2⟩
      · simp [rename_column, hL, hcol, hnd] at hOk
    · simp [rename_column, hL, hcol] at hOk

/-- A state with a `DATE`-typed column `d` on table `T`, for the C5
witness. -/
def stMeta : DBState :=
  { tables := [("T", { cols := ["d"], seq := 1, rows := [] })]
    meta := [{ table := "T", col := "d", special := "DATE", extra := "" }]
    undoStack := []
    redoStack := [] }

/-- Witness for C5: renaming `d` to `d2` on table `T` moves the `DATE`
metadata to `d2` and removes it from `d`. -/
theorem rename_column_special_type_witness :
    get_special_type (rename_column stMeta "T" "d" "d2").1 "T" "d2" = some ("DATE", "") ∧
      get_special_type (rename_column stMeta "T" "d" "d2").1 "T" "d" = none :=
  rename_column_special_type stMeta (rename_column stMeta "T" "d" "d2").1
    "T" "d" "d2" "DATE" "" (by decide) (by decide) (by decide)

/-! ## Claim C6: encryption round trip -/

theorem fernetDecrypt_encrypt (key data : List Nat) :
    fernetDecrypt key (fernetEncrypt key data) = .ok data := by
  simp [fernetDecrypt, fernetEncrypt, List.take_left, List.drop_left]

theorem fernetDecrypt_wrong_key (key key2 data : List Nat) (h : key2 ≠ key) :
    fernetDecrypt key2 (fernetEncrypt key data) = .error "InvalidToken" := by
  simp only [fernetDecrypt, fernetEncrypt]
  rw [if_neg]
  rintro ⟨-, h2⟩
  rw [List.take_left] at h2
  exact h h2.symm

/-- C6: for every byte sequence and key, `_decrypt_to_temp` applied
with the same key to the file written by `_encrypt_file` recovers the
original bytes into the temp file; decrypting the same ciphertext with
any different key raises `InvalidToken` instead of returning wrong
plaintext.  (`Fernet` itself is library code, modelled from the spec as
authenticated symmetric encryption.) -/
theorem encrypt_decrypt_round_trip (key key2 data : List Nat) (fs fs1 : FileSys)
    (src dst tmp : String)
    (hR : fsRead fs src = some data)
    (hE : encrypt_file key fs src dst = some fs1) :
    decrypt_to_temp key fs1 dst tmp = .ok (fsWrite fs1 tmp data) ∧
      (key2 ≠ key → decrypt_to_temp key2 fs1 dst tmp = .error "InvalidToken") := by
  have hfs1 : fs1 = fsWrite fs dst (fernetEncrypt key data) := by
    simp [encrypt_file, hR] at hE
    exact hE.symm
  have hread : fsRead fs1 dst = some (fernetEncrypt key data) := by
    rw [hfs1]
    simp [fsRead, fsWrite, List.lookup]
  constructor
  · simp [decrypt_to_temp, hread, fernetDecrypt_encrypt]
  · intro hk
    simp [decrypt_to_temp, hread, fernetDecrypt_wrong_key key key2 data hk]

/-- Witness for C6 at concrete bytes and keys. -/
theorem encrypt_decrypt_round_trip_witness :
    decrypt_to_temp [1, 2] (fsWrite [("db", [9, 9, 9])] "db.enc"
        (fernetEncrypt [1, 2] [9, 9, 9])) "db.enc" "tmp" =
      .ok (fsWrite (fsWrite [("db", [9, 9, 9])] "db.enc"
        (fernetEncrypt [1, 2] [9, 9, 9])) "tmp" [9, 9, 9]) ∧
      ([3, 4] ≠ [1, 2] → decrypt_to_temp [3, 4] (fsWrite [("db", [9, 9, 9])] "db.enc"
        (fernetEncrypt [1, 2] [9, 9, 9])) "db.enc" "tmp" = .error "InvalidToken") :=
  encrypt_decrypt_round_trip [1, 2] [3, 4] [9, 9, 9] [("db", [9, 9, 9])] _
    "db" "db.enc" "tmp" (by decide) (by decide)

/-! ## Claim C8: `verify_password` fails closed -/

/-- C8: whenever the credential file is missing, unreadable, or
malformed (bad JSON, missing or undecodable salt/hash fields, or an
iteration count that `int(...)` cannot parse), `verify_password`
returns `false` for every candidate password and every key-derivation
function — it is a total function returning a Bool, never an
exception. -/
theorem verify_password_fail_closed (pbkdf2 : String → List Nat → Int → List Nat)
    (f : AuthFile) (pwd : String) (h : credMalformed f = true) :
    verify_password pbkdf2 f pwd = false := by
  cases f with
  | missing => rfl
  | unreadable => rfl
  | badJson => rfl
  | parsed s hs it =>
    cases s <;> cases hs <;> cases it <;>
      first
        | rfl
        | simp [credMalformed] at h

/-- Witness for C8: a credential file with an undecodable hash field
verifies no password. -/
theorem verify_password_fail_closed_witness :
    verify_password (fun _ _ _ => [0])
      (AuthFile.parsed (JsonField.val [1]) JsonField.notB64 IterField.absent)
      "Admin" = false :=
  verify_password_fail_closed (fun _ _ _ => [0])
    (AuthFile.parsed (JsonField.val [1]) JsonField.notB64 IterField.absent)
    "Admin" (by decide)

/-! ## Invariant infrastructure for the bounded-journal claim (C2) -/

theorem insertedTable_rows (td : TableData) (data : List (String × SqlValue)) :
    (insertedTable td data).rows = td.rows ++ [(td.seq, insertFields td.cols data)] := rfl

theorem insertedTable_cols (td : TableData) (data : List (String × SqlValue)) :
    (insertedTable td data).cols = td.cols := rfl

theorem insertedTable_seq (td : TableData) (data : List (String × SqlValue)) :
    (insertedTable td data).seq = td.seq + 1 := rfl

theorem updatedTable_rows (td : TableData) (rid : Int) (data : List (String × SqlValue)) :
    (updatedTable td rid data).rows =
      setRowsBy td.rows rid (fun r => applyUpdate td.cols r.2 data) := rfl

theorem updatedTable_cols (td : TableData) (rid : Int) (data : List (String × SqlValue)) :
    (updatedTable td rid data).cols = td.cols := rfl

theorem updatedTable_seq (td : TableData) (rid : Int) (data : List (String × SqlValue)) :
    (updatedTable td rid data).seq = td.seq := rfl

theorem deletedTable_rows (td : TableData) (rid : Int) :
    (deletedTable td rid).rows = deleteRows td.rows rid := rfl

theorem deletedTable_cols (td : TableData) (rid : Int) :
    (deletedTable td rid).cols = td.cols := rfl

theorem deletedTable_seq (td : TableData) (rid : Int) :
    (deletedTable td rid).seq = td.seq := rfl

theorem restoredTable_rows (td : TableData) (row : SqlRow) :
    (restoredTable td row).rows = td.rows ++ [(row.1, row.2)] := rfl

theorem restoredTable_cols (td : TableData) (row : SqlRow) :
    (restoredTable td row).cols = td.cols := rfl

theorem restoredTable_seq (td : TableData) (row : SqlRow) :
    (restoredTable td row).seq = max td.seq (row.1 + 1) := rfl

theorem setFieldsTable_rows (td : TableData) (rid : Int) (fields : List SqlValue) :
    (setFieldsTable td rid fields).rows = setRowsBy td.rows rid (fun _ => fields) := rfl

theorem setFieldsTable_cols (td : TableData) (rid : Int) (fields : List SqlValue) :
    (setFieldsTable td rid fields).cols = td.cols := rfl

theorem setFieldsTable_seq (td : TableData) (rid : Int) (fields : List SqlValue) :
    (setFieldsTable td rid fields).seq = td.seq := rfl

theorem assoc_mem (l : List (String × TableData)) (t : String) (td : TableData)
    (h : assoc l t = some td) : (t, td) ∈ l := by
  induction l with
  | nil => simp [assoc] at h
  | cons p l ih =>
    obtain ⟨k, v⟩ := p
    by_cases hk : k = t
    · subst hk
      have hv : v = td := by simpa [assoc] using h
      subst hv
      exact List.mem_cons_self _ _
    · have h' : assoc l t = some td := by simpa [assoc, hk] using h
      exact List.mem_cons_of_mem _ (ih h')

theorem tableWF_iff (td : TableData) : tableWF td = true ↔
    (td.rows.map Prod.fst).Nodup ∧ (∀ r ∈ td.rows, r.2.length = td.cols.length) ∧
      (∀ r ∈ td.rows, r.1 < td.seq) := by
  simp [tableWF, List.all_eq_true, and_assoc]

theorem entryWF_insert_iff (st : DBState) (t : String) (rid : Int) :
    entryWF st (.insert t rid) = true ↔
      ∃ td, lookupTable st t = some td ∧ rid < td.seq := by
  cases hL : lookupTable st t with
  | none => simp [entryWF, hL]
  | some td => simp [entryWF, hL]

theorem entryWF_delete_iff (st : DBState) (t : String) (rid : Int) (old : SqlRow)
    (capCols : List String) :
    entryWF st (.delete t rid old capCols) = true ↔
      ∃ td, lookupTable st t = some td ∧ capCols = get_columns td ∧
        old.2.length = td.cols.length ∧ old.1 = rid ∧ rid < td.seq ∧
        ¬ rid ∈ td.rows.map Prod.fst := by
  cases hL : lookupTable st t with
  | none => simp [entryWF, hL]
  | some td =>
    simp only [entryWF, hL, Bool.and_eq_true, decide_eq_true_eq, Option.some.injEq]
    constructor
    · rintro ⟨⟨⟨⟨h1, h2⟩, h3⟩, h4⟩, h5⟩
      exact ⟨td, rfl, h1, h2, h3, h4, h5⟩
    · rintro ⟨td', htd', h1, h2, h3, h4, h5⟩
      obtain rfl := htd'.symm
      exact ⟨⟨⟨⟨h1, h2⟩, h3⟩, h4⟩, h5⟩

theorem entryWF_update_iff (st : DBState) (t : String) (rid : Int) (old : SqlRow)
    (new : Option SqlRow) :
    entryWF st (.update t rid old new) = true ↔
      ∃ td, lookupTable st t = some td ∧ old.2.length = td.cols.length ∧ rid < td.seq ∧
        (∀ nd, new = some nd → nd.2.length = td.cols.length) := by
  cases hL : lookupTable st t with
  | none => simp [entryWF, hL]
  | some td =>
    cases new with
    | none => simp [entryWF, hL]
    | some nd => simp [entryWF, hL, and_assoc]

theorem head?_mem {α : Type} (l : List α) (o : α) (h : l.head? = some o) : o ∈ l := by
  cases l with
  | nil => simp at h
  | cons x xs =>
    simp only [List.head?_cons, Option.some.injEq] at h
    rw [← h]
    exact List.mem_cons_self _ _

theorem recordsById_head_props (td : TableData) (rid : Int) (o : SqlRow)
    (h : (recordsById td rid).head? = some o) : o ∈ td.rows ∧ o.1 = rid := by
  have hm := head?_mem _ _ h
  have hf := List.mem_filter.mp hm
  exact ⟨hf.1, by simpa using hf.2⟩

theorem rows_any_of_mem (rows : List SqlRow) (rid : Int) (o : SqlRow)
    (ho : o ∈ rows) (h1 : o.1 = rid) :
    rows.any (fun r => decide (r.1 = rid)) = true :=
  List.any_eq_true.mpr ⟨o, ho, by simp [h1]⟩

theorem pushBounded_sublist (e : UndoEntry) (s : List UndoEntry) :
    List.Sublist (pushBounded e s) (e :: s) :=
  List.take_sublist _ _

theorem mem_pushBounded (s : List UndoEntry) (e e' : UndoEntry)
    (h : e' ∈ pushBounded e s) : e' = e ∨ e' ∈ s :=
  List.mem_cons.mp ((pushBounded_sublist e s).subset h)

theorem pushBounded_length (e : UndoEntry) (s : List UndoEntry) :
    (pushBounded e s).length = min 3 (s.length + 1) := by
  simp [pushBounded]
  omega

theorem delKeys_cons_insert (t : String) (rid : Int) (s : List UndoEntry) :
    delKeys (UndoEntry.insert t rid :: s) = delKeys s := rfl

theorem delKeys_cons_update (t : String) (rid : Int) (old : SqlRow) (new : Option SqlRow)
    (s : List UndoEntry) :
    delKeys (UndoEntry.update t rid old new :: s) = delKeys s := rfl

theorem delKeys_cons_delete (t : String) (rid : Int) (old : SqlRow) (cap : List String)
    (s : List UndoEntry) :
    delKeys (UndoEntry.delete t rid old cap :: s) = (t, rid) :: delKeys s := rfl

theorem delKeys_pushBounded (e : UndoEntry) (s : List UndoEntry) :
    List.Sublist (delKeys (pushBounded e s)) (delKeys (e :: s)) :=
  List.Sublist.filterMap _ (pushBounded_sublist e s)

theorem mem_delKeys (s : List UndoEntry) (t : String) (rid : Int) (old : SqlRow)
    (cap : List String) (h : UndoEntry.delete t rid old cap ∈ s) :
    (t, rid) ∈ delKeys s := by
  unfold delKeys
  exact List.mem_filterMap.mpr ⟨_, h, rfl⟩

theorem delKeys_mem (s : List UndoEntry) (t : String) (rid : Int)
    (h : (t, rid) ∈ delKeys s) : ∃ old cap, UndoEntry.delete t rid old cap ∈ s := by
  unfold delKeys at h
  obtain ⟨e, he, hfe⟩ := List.mem_filterMap.mp h
  cases e with
  | insert t' rid' => simp at hfe
  | update t' rid' old new => simp at hfe
  | delete t' rid' old cap =>
    simp only [Option.some.injEq, Prod.mk.injEq] at hfe
    obtain ⟨rfl, rfl⟩ := hfe
    exact ⟨old, cap, he⟩

theorem tableWF_insertedTable (td : TableData) (data : List (String × SqlValue))
    (h : tableWF td = true) : tableWF (insertedTable td data) = true := by
  rw [tableWF_iff] at h ⊢
  obtain ⟨h1, h2, h3⟩ := h
  rw [insertedTable_rows, insertedTable_cols, insertedTable_seq]
  refine ⟨?_, ?_, ?_⟩
  · rw [List.map_append]
    apply List.Nodup.append h1 (List.nodup_singleton _)
    intro a ha
    obtain ⟨r, hr, rfl⟩ := List.mem_map.mp ha
    simp only [List.map_cons, List.map_nil, List.mem_singleton]
    exact ne_of_lt (h3 r hr)
  · intro r hr
    rcases List.mem_append.mp hr with hm | hm
    · exact h2 r hm
    · simp only [List.mem_singleton] at hm
      subst hm
      simp [insertFields]
  · intro r hr
    rcases List.mem_append.mp hr with hm | hm
    · exact lt_trans (h3 r hm) (by omega)
    · simp only [List.mem_singleton] at hm
      subst hm
      omega

theorem tableWF_updatedTable (td : TableData) (rid : Int)
    (data : List (String × SqlValue))
    (h : tableWF td = true) : tableWF (updatedTable td rid data) = true := by
  rw [tableWF_iff] at h ⊢
  obtain ⟨h1, h2, h3⟩ := h
  rw [updatedTable_rows, updatedTable_cols, updatedTable_seq]
  refine ⟨?_, ?_, ?_⟩
  · rw [setRowsBy_map_fst]
    exact h1
  · intro r hr
    obtain ⟨q, hq, hqr⟩ := List.mem_map.mp hr
    by_cases hmatch : q.1 = rid
    · rw [if_pos hmatch] at hqr
      rw [← hqr]
      simp only []
      rw [applyUpdate_length, h2 q hq]
      exact min_self _
    · rw [if_neg hmatch] at hqr
      rw [← hqr]
      exact h2 q hq
  · intro r hr
    obtain ⟨q, hq, hqr⟩ := List.mem_map.mp hr
    by_cases hmatch : q.1 = rid
    · rw [if_pos hmatch] at hqr
      rw [← hqr]
      exact h3 q hq
    · rw [if_neg hmatch] at hqr
      rw [← hqr]
      exact h3 q hq

theorem tableWF_deletedTable (td : TableData) (rid : Int)
    (h : tableWF td = true) : tableWF (deletedTable td rid) = true := by
  rw [tableWF_iff] at h ⊢
  obtain ⟨h1, h2, h3⟩ := h
  rw [deletedTable_rows, deletedTable_cols, deletedTable_seq]
  refine ⟨?_, ?_, ?_⟩
  · exact List.Nodup.sublist (List.Sublist.map _ (List.filter_sublist _)) h1
  · intro r hr
    exact h2 r (List.mem_of_mem_filter hr)
  · intro r hr
    exact h3 r (List.mem_of_mem_filter hr)

theorem tableWF_restoredTable (td : TableData) (old : SqlRow)
    (h : tableWF td = true)
    (habs : old.1 ∉ td.rows.map Prod.fst)
    (hlen : old.2.length = td.cols.length) :
    tableWF (restoredTable td old) = true := by
  rw [tableWF_iff] at h ⊢
  obtain ⟨h1, h2, h3⟩ := h
  rw [restoredTable_rows, restoredTable_cols, restoredTable_seq]
  refine ⟨?_, ?_, ?_⟩
  · rw [List.map_append]
    apply List.Nodup.append h1 (List.nodup_singleton _)
    intro a ha
    simp only [List.map_cons, List.map_nil, List.mem_singleton]
    intro hc
    exact habs (hc ▸ ha)
  · intro r hr
    rcases List.mem_append.mp hr with hm | hm
    · exact h2 r hm
    · simp only [List.mem_singleton] at hm
      subst hm
      exact hlen
  · intro r hr
    rcases List.mem_append.mp hr with hm | hm
    · exact lt_of_lt_of_le (h3 r hm) (le_max_left _ _)
    · simp only [List.mem_singleton] at hm
      subst hm
      exact lt_of_lt_of_le (by omega) (le_max_right _ _)

theorem tableWF_setFieldsTable (td : TableData) (rid : Int) (fields : List SqlValue)
    (h : tableWF td = true) (hlen : fields.length = td.cols.length) :
    tableWF (setFieldsTable td rid fields) = true := by
  rw [tableWF_iff] at h ⊢
  obtain ⟨h1, h2, h3⟩ := h
  rw [setFieldsTable_rows, setFieldsTable_cols, setFieldsTable_seq]
  refine ⟨?_, ?_, ?_⟩
  · rw [setRowsBy_map_fst]
    exact h1
  · intro r hr
    obtain ⟨q, hq, hqr⟩ := List.mem_map.mp hr
    by_cases hmatch : q.1 = rid
    · rw [if_pos hmatch] at hqr
      rw [← hqr]
      exact hlen
    · rw [if_neg hmatch] at hqr
      rw [← hqr]
      exact h2 q hq
  · intro r hr
    obtain ⟨q, hq, hqr⟩ := List.mem_map.mp hr
    by_cases hmatch : q.1 = rid
    · rw [if_pos hmatch] at hqr
      rw [← hqr]
      exact h3 q hq
    · rw [if_neg hmatch] at hqr
      rw [← hqr]
      exact h3 q hq

theorem tablesWF_setTable (st : DBState) (t : String) (td : TableData)
    (htb : ∀ p ∈ st.tables, tableWF p.2 = true) (hwf : tableWF td = true) :
    ∀ p ∈ (setTable st t td).tables, tableWF p.2 = true := by
  intro p hp
  obtain ⟨q, hq, hqp⟩ := List.mem_map.mp hp
  by_cases h : q.1 = t
  · rw [if_pos h] at hqp
    rw [← hqp]
    exact hwf
  · rw [if_neg h] at hqp
    rw [← hqp]
    exact htb q hq

theorem entryWF_setTable (st : DBState) (t : String) (td TD : TableData) (e : UndoEntry)
    (hL : lookupTable st t = some td)
    (hcols : TD.cols = td.cols)
    (hseq : td.seq ≤ TD.seq)
    (hwf : entryWF st e = true)
    (hdel : ∀ rid old cap, e = UndoEntry.delete t rid old cap →
      ¬ rid ∈ TD.rows.map Prod.fst) :
    entryWF (setTable st t TD) e = true := by
  cases e with
  | insert t' rid =>
    rw [entryWF_insert_iff] at hwf ⊢
    obtain ⟨td0, hL0, hb⟩ := hwf
    by_cases ht : t' = t
    · subst ht
      rw [hL] at hL0
      obtain rfl := Option.some.inj hL0
      exact ⟨TD, lookupTable_setTable_self st t' td TD hL, lt_of_lt_of_le hb hseq⟩
    · refine ⟨td0, ?_, hb⟩
      rw [lookupTable_setTable_other st t t' TD ht]
      exact hL0
  | delete t' rid old cap =>
    rw [entryWF_delete_iff] at hwf ⊢
    obtain ⟨td0, hL0, hc, hl, ho, hb, habs⟩ := hwf
    by_cases ht : t' = t
    · subst ht
      rw [hL] at hL0
      obtain rfl := Option.some.inj hL0
      refine ⟨TD, lookupTable_setTable_self st t' td TD hL, ?_, ?_, ho,
        lt_of_lt_of_le hb hseq, hdel rid old cap rfl⟩
      · rw [hc]
        unfold get_columns
        rw [hcols]
      · rw [hl, hcols]
    · refine ⟨td0, ?_, hc, hl, ho, hb, habs⟩
      rw [lookupTable_setTable_other st t t' TD ht]
      exact hL0
  | update t' rid old new =>
    rw [entryWF_update_iff] at hwf ⊢
    obtain ⟨td0, hL0, hl, hb, hnd⟩ := hwf
    by_cases ht : t' = t
    · subst ht
      rw [hL] at hL0
      obtain rfl := Option.some.inj hL0
      refine ⟨TD, lookupTable_setTable_self st t' td TD hL, ?_,
        lt_of_lt_of_le hb hseq, ?_⟩
      · rw [hl, hcols]
      · intro nd hnd'
        rw [hnd nd hnd', hcols]
    · refine ⟨td0, ?_, hl, hb, hnd⟩
      rw [lookupTable_setTable_other st t t' TD ht]
      exact hL0

theorem inv_setTable_state (st : DBState) (t : String) (td TD : TableData)
    (U R : List UndoEntry)
    (_hL : lookupTable st t = some td)
    (hInv : Inv st)
    (hTDwf : tableWF TD = true)
    (hU : ∀ e ∈ U, entryWF (setTable st t TD) e = true)
    (hdkU : (delKeys U).Nodup) :
    Inv { setTable st t TD with undoStack := U, redoStack := R } := by
  obtain ⟨hname, htb, -, -⟩ := hInv
  refine ⟨?_, ?_, hU, hdkU⟩
  · show ((setTable st t TD).tables.map Prod.fst).Nodup
    rw [setTable_fst]
    exact hname
  · intro p hp
    exact tablesWF_setTable st t TD htb hTDwf p hp

theorem inv_insert_record (st : DBState) (t : String) (data : List (String × SqlValue))
    (hInv : Inv st) : Inv (insert_record st t data).1 := by
  cases hL : lookupTable st t with
  | none =>
    have hres : (insert_record st t data).1 = st := by simp [insert_record, hL]
    rw [hres]
    exact hInv
  | some td =>
    by_cases hv : validData td data = true
    · obtain ⟨hname, htb, hent, hdk⟩ := hInv
      have htdwf : tableWF td = true := htb (t, td) (assoc_mem st.tables t td hL)
      have hres : (insert_record st t data).1 =
          { setTable st t (insertedTable td data) with
            undoStack := pushBounded (UndoEntry.insert t td.seq) st.undoStack
            redoStack := [] } := by
        simp [insert_record, hL, hv, setTable_undoStack]
      rw [hres]
      apply inv_setTable_state st t td _ _ _ hL ⟨hname, htb, hent, hdk⟩
        (tableWF_insertedTable td data htdwf)
      · intro e he
        rcases mem_pushBounded st.undoStack _ e he with rfl | he'
        · rw [entryWF_insert_iff]
          refine ⟨insertedTable td data, lookupTable_setTable_self st t td _ hL, ?_⟩
          rw [insertedTable_seq]
          omega
        · apply entryWF_setTable st t td (insertedTable td data) e hL
            (insertedTable_cols td data) (by rw [insertedTable_seq]; omega) (hent e he')
          intro rid old cap hEq
          subst hEq
          have hwfe := hent _ he'
          rw [entryWF_delete_iff] at hwfe
          obtain ⟨td0, hL0, -, -, -, hb, habs⟩ := hwfe
          rw [hL] at hL0
          obtain rfl := Option.some.inj hL0
          rw [insertedTable_rows, List.map_append]
          intro hc
          rcases List.mem_append.mp hc with hc | hc
          · exact habs hc
          · simp only [List.map_cons, List.map_nil, List.mem_singleton] at hc
            omega
      · apply List.Nodup.sublist (delKeys_pushBounded _ _)
        rw [delKeys_cons_insert]
        exact hdk
    · have hres : (insert_record st t data).1 = st := by simp [insert_record, hL, hv]
      rw [hres]
      exact hInv

theorem inv_update_record (st : DBState) (t : String) (rid : Int)
    (data : List (String × SqlValue)) (hInv : Inv st) :
    Inv (update_record st t rid data).1 := by
  cases hL : lookupTable st t with
  | none =>
    have hres : (update_record st t rid data).1 = st := by simp [update_record, hL]
    rw [hres]
    exact hInv
  | some td =>
    by_cases hv : validData td data = true
    · obtain ⟨hname, htb, hent, hdk⟩ := hInv
      have htdwf : tableWF td = true := htb (t, td) (assoc_mem st.tables t td hL)
      have hTDwf : tableWF (updatedTable td rid data) = true :=
        tableWF_updatedTable td rid data htdwf
      have htransfer : ∀ e ∈ st.undoStack,
          entryWF (setTable st t (updatedTable td rid data)) e = true := by
        intro e he
        apply entryWF_setTable st t td (updatedTable td rid data) e hL
          (updatedTable_cols td rid data) (by rw [updatedTable_seq]) (hent e he)
        intro rid' old cap hEq
        subst hEq
        have hwfe := hent _ he
        rw [entryWF_delete_iff] at hwfe
        obtain ⟨td0, hL0, -, -, -, -, habs⟩ := hwfe
        rw [hL] at hL0
        obtain rfl := Option.some.inj hL0
        rw [updatedTable_rows, setRowsBy_map_fst]
        exact habs
      cases ho : (recordsById td rid).head? with
      | none =>
        have hres : (update_record st t rid data).1 =
            setTable st t (updatedTable td rid data) := by
          cases hn : (recordsById (updatedTable td rid data) rid).head? <;>
            simp [update_record, hL, hv, ho, hn]
        rw [hres]
        exact inv_setTable_state st t td (updatedTable td rid data)
          st.undoStack st.redoStack hL ⟨hname, htb, hent, hdk⟩ hTDwf htransfer hdk
      | some o =>
        obtain ⟨homem, ho1⟩ := recordsById_head_props td rid o ho
        have hany : (updatedTable td rid data).rows.any
            (fun r => decide (r.1 = rid)) = true := by
          rw [updatedTable_rows, any_id_eq, setRowsBy_map_fst, ← any_id_eq]
          exact rows_any_of_mem td.rows rid o homem ho1
        obtain ⟨n, hn⟩ := Option.isSome_iff_exists.mp
          (head?_isSome_of_any (updatedTable td rid data).rows rid hany)
        obtain ⟨hnmem, hn1⟩ := recordsById_head_props (updatedTable td rid data) rid n hn
        have hn2 : (recordsById (updatedTable td rid data) rid).head? = some n := hn
        have hres : (update_record st t rid data).1 =
            { setTable st t (updatedTable td rid data) with
              undoStack := pushBounded (UndoEntry.update t rid o (some n)) st.undoStack
              redoStack := [] } := by
          simp [update_record, hL, hv, ho, hn2, setTable_undoStack]
        rw [hres]
        apply inv_setTable_state st t td _ _ _ hL ⟨hname, htb, hent, hdk⟩ hTDwf
        · intro e he
          rcases mem_pushBounded st.undoStack _ e he with rfl | he'
          · rw [entryWF_update_iff]
            refine ⟨updatedTable td rid data,
              lookupTable_setTable_self st t td _ hL, ?_, ?_, ?_⟩
            · rw [updatedTable_cols]
              exact (tableWF_iff td).mp htdwf |>.2.1 o homem
            · rw [updatedTable_seq, ← ho1]
              exact (tableWF_iff td).mp htdwf |>.2.2 o homem
            · intro nd hnd
              obtain rfl := Option.some.inj hnd
              exact (tableWF_iff _).mp hTDwf |>.2.1 n hnmem
          · exact htransfer e he'
        · apply List.Nodup.sublist (delKeys_pushBounded _ _)
          rw [delKeys_cons_update]
          exact hdk
    · have hres : (update_record st t rid data).1 = st := by
        simp [update_record, hL, hv]
      rw [hres]
      exact hInv

theorem inv_delete_record (st : DBState) (t : String) (rid : Int) (hInv : Inv st) :
    Inv (delete_record st t rid).1 := by
  cases hL : lookupTable st t with
  | none =>
    have hres : (delete_record st t rid).1 = st := by simp [delete_record, hL]
    rw [hres]
    exact hInv
  | some td =>
    obtain ⟨hname, htb, hent, hdk⟩ := hInv
    have htdwf : tableWF td = true := htb (t, td) (assoc_mem st.tables t td hL)
    have hTDwf : tableWF (deletedTable td rid) = true := tableWF_deletedTable td rid htdwf
    have habsTD : ¬ rid ∈ (deletedTable td rid).rows.map Prod.fst := by
      rw [deletedTable_rows]
      intro hc
      obtain ⟨r, hr, hr1⟩ := List.mem_map.mp hc
      have := List.mem_filter.mp hr
      simp only [Bool.not_eq_true', decide_eq_false_iff_not] at this
      exact this.2 hr1
    have htransfer : ∀ e ∈ st.undoStack,
        entryWF (setTable st t (deletedTable td rid)) e = true := by
      intro e he
      apply entryWF_setTable st t td (deletedTable td rid) e hL
        (deletedTable_cols td rid) (by rw [deletedTable_seq]) (hent e he)
      intro rid' old cap hEq
      subst hEq
      have hwfe := hent _ he
      rw [entryWF_delete_iff] at hwfe
      obtain ⟨td0, hL0, -, -, -, -, habs⟩ := hwfe
      rw [hL] at hL0
      obtain rfl := Option.some.inj hL0
      rw [deletedTable_rows]
      intro hc
      obtain ⟨r, hr, hr1⟩ := List.mem_map.mp hc
      exact habs (hr1 ▸ List.mem_map_of_mem Prod.fst (List.mem_of_mem_filter hr))
    cases ho : (recordsById td rid).head? with
    | none =>
      have hres : (delete_record st t rid).1 =
          setTable st t (deletedTable td rid) := by
        simp [delete_record, hL, ho]
      rw [hres]
      exact inv_setTable_state st t td (deletedTable td rid)
        st.undoStack st.redoStack hL ⟨hname, htb, hent, hdk⟩ hTDwf htransfer hdk
    | some o =>
      obtain ⟨homem, ho1⟩ := recordsById_head_props td rid o ho
      have hres : (delete_record st t rid).1 =
          { setTable st t (deletedTable td rid) with
            undoStack := pushBounded (UndoEntry.delete t rid o (get_columns td))
              st.undoStack
            redoStack := [] } := by
        simp [delete_record, hL, ho, setTable_undoStack]
      rw [hres]
      apply inv_setTable_state st t td _ _ _ hL ⟨hname, htb, hent, hdk⟩ hTDwf
      · intro e he
        rcases mem_pushBounded st.undoStack _ e he with rfl | he'
        · rw [entryWF_delete_iff]
          refine ⟨deletedTable td rid, lookupTable_setTable_self st t td _ hL,
            ?_, ?_, ho1, ?_, habsTD⟩
          · unfold get_columns
            rw [deletedTable_cols]
          · rw [deletedTable_cols]
            exact (tableWF_iff td).mp htdwf |>.2.1 o homem
          · rw [deletedTable_seq, ← ho1]
            exact (tableWF_iff td).mp htdwf |>.2.2 o homem
        · exact htransfer e he'
      · apply List.Nodup.sublist (delKeys_pushBounded _ _)
        rw [delKeys_cons_delete]
        apply List.Nodup.cons
        · intro hc
          obtain ⟨old', cap', hmem'⟩ := delKeys_mem st.undoStack t rid hc
          have hwfe := hent _ hmem'
          rw [entryWF_delete_iff] at hwfe
          obtain ⟨td0, hL0, -, -, -, -, habs⟩ := hwfe
          rw [hL] at hL0
          obtain rfl := Option.some.inj hL0
          exact habs (ho1 ▸ List.mem_map_of_mem Prod.fst homem)
        · exact hdk

theorem inv_applyMut (st : DBState) (m : Mut) (h : Inv st) : Inv (applyMut st m).1 := by
  cases m with
  | ins t data => exact inv_insert_record st t data h
  | upd t rid data => exact inv_update_record st t rid data h
  | del t rid => exact inv_delete_record st t rid h

theorem entryWF_deletedTable (st : DBState) (t : String) (td : TableData) (rid : Int)
    (hL : lookupTable st t = some td) (e : UndoEntry) (he : entryWF st e = true) :
    entryWF (setTable st t (deletedTable td rid)) e = true := by
  apply entryWF_setTable st t td (deletedTable td rid) e hL (deletedTable_cols td rid)
    (by rw [deletedTable_seq]) he
  intro rid' old cap hEq
  subst hEq
  rw [entryWF_delete_iff] at he
  obtain ⟨td0, hL0, -, -, -, -, habs⟩ := he
  rw [hL] at hL0
  obtain rfl := Option.some.inj hL0
  rw [deletedTable_rows]
  intro hc
  obtain ⟨r, hr, hr1⟩ := List.mem_map.mp hc
  exact habs (hr1 ▸ List.mem_map_of_mem Prod.fst (List.mem_of_mem_filter hr))

theorem entryWF_fields_setTable (st : DBState) (t : String) (td : TableData) (rid : Int)
    (fields : List SqlValue)
    (hL : lookupTable st t = some td) (e : UndoEntry) (he : entryWF st e = true) :
    entryWF (setTable st t (setFieldsTable td rid fields)) e = true := by
  apply entryWF_setTable st t td (setFieldsTable td rid fields) e hL
    (setFieldsTable_cols td rid fields) (by rw [setFieldsTable_seq]) he
  intro rid' old cap hEq
  subst hEq
  rw [entryWF_delete_iff] at he
  obtain ⟨td0, hL0, -, -, -, -, habs⟩ := he
  rw [hL] at hL0
  obtain rfl := Option.some.inj hL0
  rw [setFieldsTable_rows, setRowsBy_map_fst]
  exact habs

/-- Under the session invariant, `undo` on a non-empty stack succeeds,
pops exactly the top entry, and preserves the invariant. -/
theorem undo_succeeds_and_inv (st : DBState) (hInv : Inv st)
    (hne : st.undoStack ≠ []) :
    (undo st).2.1 = true ∧ (undo st).1.undoStack = st.undoStack.tail ∧
      Inv (undo st).1 := by
  obtain ⟨hname, htb, hent, hdk⟩ := hInv
  cases hS : st.undoStack with
  | nil => exact absurd hS hne
  | cons op rest =>
    have hop : entryWF st op = true := hent op (by rw [hS]; exact List.mem_cons_self _ _)
    have hrest : ∀ e ∈ rest, entryWF st e = true :=
      fun e he => hent e (by rw [hS]; exact List.mem_cons_of_mem _ he)
    cases op with
    | insert t rid =>
      rw [entryWF_insert_iff] at hop
      obtain ⟨td, hL, hb⟩ := hop
      have htdwf := htb (t, td) (assoc_mem st.tables t td hL)
      have hU := undo_insert_step st t rid rest td hS hL
      rw [hU]
      refine ⟨rfl, rfl, ?_⟩
      apply inv_setTable_state st t td (deletedTable td rid) rest _ hL
        ⟨hname, htb, hent, hdk⟩ (tableWF_deletedTable td rid htdwf)
      · intro e he
        exact entryWF_deletedTable st t td rid hL e (hrest e he)
      · rw [hS, delKeys_cons_insert] at hdk
        exact hdk
    | update t rid old new =>
      rw [entryWF_update_iff] at hop
      obtain ⟨td, hL, hlen, hb, -⟩ := hop
      have htdwf := htb (t, td) (assoc_mem st.tables t td hL)
      have hU := undo_update_step st t rid old new rest td hS hL hlen
      rw [hU]
      refine ⟨rfl, rfl, ?_⟩
      apply inv_setTable_state st t td (setFieldsTable td rid old.2) rest _ hL
        ⟨hname, htb, hent, hdk⟩ (tableWF_setFieldsTable td rid old.2 htdwf hlen)
      · intro e he
        exact entryWF_fields_setTable st t td rid old.2 hL e (hrest e he)
      · rw [hS, delKeys_cons_update] at hdk
        exact hdk
    | delete t rid old cap =>
      rw [entryWF_delete_iff] at hop
      obtain ⟨td, hL, hcap, hlen, ho1, hb, habs⟩ := hop
      have htdwf := htb (t, td) (assoc_mem st.tables t td hL)
      have habs' : ¬ old.1 ∈ td.rows.map Prod.fst := by
        rw [ho1]
        exact habs
      have hU := undo_delete_step st t rid old cap rest td hS hL hcap hlen habs'
      rw [hU]
      refine ⟨rfl, rfl, ?_⟩
      have hdk2 := hdk
      rw [hS, delKeys_cons_delete] at hdk2
      apply inv_setTable_state st t td (restoredTable td old) rest _ hL
        ⟨hname, htb, hent, hdk⟩
        (tableWF_restoredTable td old htdwf habs' hlen)
      · intro e he
        apply entryWF_setTable st t td (restoredTable td old) e hL
          (restoredTable_cols td old)
          (by rw [restoredTable_seq]; exact le_max_left _ _) (hrest e he)
        intro rid' old' cap' hEq
        subst hEq
        have hwfe := hrest _ he
        rw [entryWF_delete_iff] at hwfe
        obtain ⟨td0, hL0, -, -, -, -, habs2⟩ := hwfe
        rw [hL] at hL0
        obtain rfl := Option.some.inj hL0
        rw [restoredTable_rows, List.map_append]
        intro hc
        rcases List.mem_append.mp hc with hc | hc
        · exact habs2 hc
        · simp only [List.map_cons, List.map_nil, List.mem_singleton] at hc
          apply (List.nodup_cons.mp hdk2).1
          have hmem : (t, rid') ∈ delKeys rest := mem_delKeys rest t rid' old' cap' he
          rw [hc, ho1] at hmem
          exact hmem
      · exact (List.nodup_cons.mp hdk2).2

/-- A journal-recording mutation grows the undo stack by one, up to the
capacity of 3 (evicting the oldest entry past that). -/
theorem journals_undo_len (st : DBState) (m : Mut) (h : journals st m = true) :
    (applyMut st m).1.undoStack.length = min 3 (st.undoStack.length + 1) := by
  have hand := h
  rw [journals.eq_def, Bool.and_eq_true] at hand
  have h2 : (applyMut st m).2 = true := hand.1
  have hex := hand.2
  clear hand
  cases m with
  | ins t data =>
    cases hL : lookupTable st t with
    | none => simp [applyMut, insert_record, hL] at h2
    | some td =>
      by_cases hv : validData td data = true
      · have hres : (insert_record st t data).1 =
            { setTable st t (insertedTable td data) with
              undoStack := pushBounded (UndoEntry.insert t td.seq) st.undoStack
              redoStack := [] } := by
          simp [insert_record, hL, hv, setTable_undoStack]
        show (insert_record st t data).1.undoStack.length = _
        rw [hres]
        exact pushBounded_length _ _
      · simp [applyMut, insert_record, hL, hv] at h2
  | upd t rid data =>
    cases hL : lookupTable st t with
    | none => simp [existsRow, hL] at hex
    | some td =>
      simp only [existsRow, hL] at hex
      by_cases hv : validData td data = true
      · obtain ⟨o, ho⟩ := Option.isSome_iff_exists.mp (head?_isSome_of_any td.rows rid hex)
        obtain ⟨homem, ho1⟩ := recordsById_head_props td rid o ho
        have hany : (updatedTable td rid data).rows.any
            (fun r => decide (r.1 = rid)) = true := by
          rw [updatedTable_rows, any_id_eq, setRowsBy_map_fst, ← any_id_eq]
          exact rows_any_of_mem td.rows rid o homem ho1
        obtain ⟨n, hn⟩ := Option.isSome_iff_exists.mp
          (head?_isSome_of_any (updatedTable td rid data).rows rid hany)
        have hn2 : (recordsById (updatedTable td rid data) rid).head? = some n := hn
        have hres : (update_record st t rid data).1 =
            { setTable st t (updatedTable td rid data) with
              undoStack := pushBounded (UndoEntry.update t rid o (some n)) st.undoStack
              redoStack := [] } := by
          have ho2 : (recordsById td rid).head? = some o := ho
          simp [update_record, hL, hv, ho2, hn2, setTable_undoStack]
        show (update_record st t rid data).1.undoStack.length = _
        rw [hres]
        exact pushBounded_length _ _
      · simp [applyMut, update_record, hL, hv] at h2
  | del t rid =>
    cases hL : lookupTable st t with
    | none => simp [existsRow, hL] at hex
    | some td =>
      simp only [existsRow, hL] at hex
      obtain ⟨o, ho⟩ := Option.isSome_iff_exists.mp (head?_isSome_of_any td.rows rid hex)
      have ho2 : (recordsById td rid).head? = some o := ho
      have hres : (delete_record st t rid).1 =
          { setTable st t (deletedTable td rid) with
            undoStack := pushBounded (UndoEntry.delete t rid o (get_columns td))
              st.undoStack
            redoStack := [] } := by
        simp [delete_record, hL, ho2, setTable_undoStack]
      show (delete_record st t rid).1.undoStack.length = _
      rw [hres]
      exact pushBounded_length _ _

/-! ## Claim C2: the bounded undo journal -/

/-- C2 counterexample: four successful mutations after which the very
first `undo()` already fails with the nothing-to-undo message — the
mutations are deletes of a non-existent id, which return `True` but
record no journal entry, so undo succeeds zero times, not exactly
three. -/
theorem bounded_journal_cex :
    (delete_record stFresh "t" 1).2 = true ∧
      (delete_record (delete_record stFresh "t" 1).1 "t" 1).2 = true ∧
      (delete_record (delete_record (delete_record stFresh "t" 1).1 "t" 1).1 "t" 1).2 =
        true ∧
      (delete_record (delete_record (delete_record (delete_record stFresh "t" 1).1
        "t" 1).1 "t" 1).1 "t" 1).2 = true ∧
      (undo (delete_record (delete_record (delete_record (delete_record stFresh "t" 1).1
        "t" 1).1 "t" 1).1 "t" 1).1).2.1 = false ∧
      (undo (delete_record (delete_record (delete_record (delete_record stFresh "t" 1).1
        "t" 1).1 "t" 1).1 "t" 1).1).2.2 = "Nessuna operazione da annullare" := by
  decide

/-- C2 (amended): from any well-formed session state, after four
successful mutations that each record an undo journal entry, the undo
stack holds exactly 3 entries (the oldest evicted); calling `undo()`
four times succeeds exactly three times, and the fourth call returns a
failure flag with the nothing-to-undo message ("Nessuna operazione da
annullare").  Successful mutations that match no row record no entry
and are excluded (see the counterexample and C9). -/
theorem bounded_journal (st : DBState) (m1 m2 m3 m4 : Mut)
    (hInv : Inv st)
    (h1 : journals st m1 = true)
    (h2 : journals (applyMut st m1).1 m2 = true)
    (h3 : journals (applyMut (applyMut st m1).1 m2).1 m3 = true)
    (h4 : journals (applyMut (applyMut (applyMut st m1).1 m2).1 m3).1 m4 = true) :
    (chain4 st m1 m2 m3 m4).undoStack.length = 3 ∧
      (undo (chain4 st m1 m2 m3 m4)).2.1 = true ∧
      (undo (undo (chain4 st m1 m2 m3 m4)).1).2.1 = true ∧
      (undo (undo (undo (chain4 st m1 m2 m3 m4)).1).1).2.1 = true ∧
      (undo (undo (undo (undo (chain4 st m1 m2 m3 m4)).1).1).1).2.1 = false ∧
      (undo (undo (undo (undo (chain4 st m1 m2 m3 m4)).1).1).1).2.2 =
        "Nessuna operazione da annullare" := by
  have I1 : Inv (applyMut st m1).1 := inv_applyMut st m1 hInv
  have I2 : Inv (applyMut (applyMut st m1).1 m2).1 := inv_applyMut _ m2 I1
  have I3 : Inv (applyMut (applyMut (applyMut st m1).1 m2).1 m3).1 :=
    inv_applyMut _ m3 I2
  have I4 : Inv (chain4 st m1 m2 m3 m4) := inv_applyMut _ m4 I3
  have l1 := journals_undo_len st m1 h1
  have l2 := journals_undo_len _ m2 h2
  have l3 := journals_undo_len _ m3 h3
  have l4 := journals_undo_len _ m4 h4
  have L4 : (chain4 st m1 m2 m3 m4).undoStack.length = 3 := by
    show (applyMut (applyMut (applyMut (applyMut st m1).1 m2).1 m3).1
      m4).1.undoStack.length = 3
    omega
  have hne4 : (chain4 st m1 m2 m3 m4).undoStack ≠ [] := by
    intro hc
    rw [hc] at L4
    simp at L4
  obtain ⟨f1, t1, I5⟩ := undo_succeeds_and_inv _ I4 hne4
  have L5 : (undo (chain4 st m1 m2 m3 m4)).1.undoStack.length = 2 := by
    rw [t1, List.length_tail, L4]
  have hne5 : (undo (chain4 st m1 m2 m3 m4)).1.undoStack ≠ [] := by
    intro hc
    rw [hc] at L5
    simp at L5
  obtain ⟨f2, t2, I6⟩ := undo_succeeds_and_inv _ I5 hne5
  have L6 : (undo (undo (chain4 st m1 m2 m3 m4)).1).1.undoStack.length = 1 := by
    rw [t2, List.length_tail, L5]
  have hne6 : (undo (undo (chain4 st m1 m2 m3 m4)).1).1.undoStack ≠ [] := by
    intro hc
    rw [hc] at L6
    simp at L6
  obtain ⟨f3, t3, I7⟩ := undo_succeeds_and_inv _ I6 hne6
  have L7 : (undo (undo (undo (chain4 st m1 m2 m3 m4)).1).1).1.undoStack.length = 0 := by
    rw [t3, List.length_tail, L6]
  have hnil : (undo (undo (undo (chain4 st m1 m2 m3 m4)).1).1).1.undoStack = [] :=
    List.eq_nil_of_length_eq_zero L7
  have hu4 := undo_nil _ hnil
  exact ⟨L4, f1, f2, f3, by rw [hu4], by rw [hu4]⟩

/-- Witness for the amended C2: four inserts into a fresh session, then
four undo calls. -/
theorem bounded_journal_witness :
    (chain4 stFresh (Mut.ins "t" [("a", SqlValue.int 1)])
        (Mut.ins "t" [("a", SqlValue.int 2)]) (Mut.ins "t" [("a", SqlValue.int 3)])
        (Mut.ins "t" [("a", SqlValue.int 4)])).undoStack.length = 3 ∧
      (undo (chain4 stFresh (Mut.ins "t" [("a", SqlValue.int 1)])
        (Mut.ins "t" [("a", SqlValue.int 2)]) (Mut.ins "t" [("a", SqlValue.int 3)])
        (Mut.ins "t" [("a", SqlValue.int 4)]))).2.1 = true ∧
      (undo (undo (chain4 stFresh (Mut.ins "t" [("a", SqlValue.int 1)])
        (Mut.ins "t" [("a", SqlValue.int 2)]) (Mut.ins "t" [("a", SqlValue.int 3)])
        (Mut.ins "t" [("a", SqlValue.int 4)]))).1).2.1 = true ∧
      (undo (undo (undo (chain4 stFresh (Mut.ins "t" [("a", SqlValue.int 1)])
        (Mut.ins "t" [("a", SqlValue.int 2)]) (Mut.ins "t" [("a", SqlValue.int 3)])
        (Mut.ins "t" [("a", SqlValue.int 4)]))).1).1).2.1 = true ∧
      (undo (undo (undo (undo (chain4 stFresh (Mut.ins "t" [("a", SqlValue.int 1)])
        (Mut.ins "t" [("a", SqlValue.int 2)]) (Mut.ins "t" [("a", SqlValue.int 3)])
        (Mut.ins "t" [("a", SqlValue.int 4)]))).1).1).1).2.1 = false ∧
      (undo (undo (undo (undo (chain4 stFresh (Mut.ins "t" [("a", SqlValue.int 1)])
        (Mut.ins "t" [("a", SqlValue.int 2)]) (Mut.ins "t" [("a", SqlValue.int 3)])
        (Mut.ins "t" [("a", SqlValue.int 4)]))).1).1).1).2.2 =
        "Nessuna operazione da annullare" :=
  bounded_journal stFresh (Mut.ins "t" [("a", SqlValue.int 1)])
    (Mut.ins "t" [("a", SqlValue.int 2)]) (Mut.ins "t" [("a", SqlValue.int 3)])
    (Mut.ins "t" [("a", SqlValue.int 4)])
    (by decide) (by decide) (by decide) (by decide) (by decide)

end DBPy
